import Mathlib

set_option maxRecDepth 40000

/-
  Verification of the scrollback message-tracking / anchor-lifecycle core.

  Shallow embedding of:
    src/utils.js               (simpleHash)
    src/anchorGenerator.js     (AnchorGenerator)
    src/messageDetector.js     (MessageDetector)
    src/anchorUI.js            (AnchorUI, bookkeeping state only)
    src/anchorInjector.js      (AnchorInjector)

  DOM elements are modelled as records carrying their stable attributes
  (reference identity `eid`, the `id` attribute, the `data-message-id`
  attribute, and the message role that the platform adapter derives from the
  element's attributes).  Everything time-varying about the page (the
  candidate list returned by `querySelectorAll`, attachment to the document,
  text content, sibling position, validity) lives in a `Dom` snapshot that is
  passed to each reconciliation pass.

  JS `Map`s are modelled as insertion-ordered association lists with the
  exact JS semantics: `set` updates in place keeping the insertion position,
  or appends; `delete` removes the entry; iteration is in insertion order.

  JS strings: an absent or empty `id` attribute is falsy in JS, so it is
  modelled as `none`.  Characters are Unicode scalar values (JS uses UTF-16
  code units; the difference only matters for astral-plane code points and
  does not affect any of the verified properties' statements).
-/
/-! ### Association lists with JS `Map` semantics -/
def alookup {α β : Type} [DecidableEq α] : List (α × β) → α → Option β
  | [], _ => none
  | (a, b) :: t, k => if a = k then some b else alookup t k
def aset {α β : Type} [DecidableEq α] : List (α × β) → α → β → List (α × β)
  | [], k, v => [(k, v)]
  | (a, b) :: t, k, v => if a = k then (a, v) :: t else (a, b) :: aset t k v
def aerase {α β : Type} [DecidableEq α] : List (α × β) → α → List (α × β)
  | [], _ => []
  | (a, b) :: t, k => if a = k then t else (a, b) :: aerase t k
def akeys {α β : Type} (l : List (α × β)) : List α := l.map Prod.fst
/-! ### Decimal and base-36 rendering (JS number `toString`) -/
def decDigitChar (d : Nat) : Char := Char.ofNat (48 + d)
def digitChar36 (d : Nat) : Char :=
  if d < 10 then Char.ofNat (48 + d) else Char.ofNat (87 + d)
def digitsFuel (b : Nat) : Nat → Nat → List Nat
  | 0, _ => []
  | fuel + 1, n => if n = 0 then [] else n % b :: digitsFuel b fuel (n / b)
/-- Little-endian digits of `n` in base `b` (kernel-computable variant of
`Nat.digits`). -/
def digitsBase (b n : Nat) : List Nat := digitsFuel b n n
/-- Rendering of a non-negative JS number by `${n}` / `String(n)` (base 10). -/
def natToDec (n : Nat) : String :=
  if n = 0 then String.mk ['0']
  else String.mk ((digitsBase 10 n).reverse.map decDigitChar)
/-- Rendering by JS `n.toString(36)` for a non-negative integer `n`. -/
def toBase36 (n : Nat) : String :=
  if n = 0 then String.mk ['0']
  else String.mk ((digitsBase 36 n).reverse.map digitChar36)
def decDecode : List Char → Nat → Nat
  | [], acc => acc
  | c :: cs, acc => decDecode cs (acc * 10 + (c.toNat - 48))
/-- Reads the decimal number after the last dash of an identifier string. -/
def parseSeq (s : String) : Nat :=
  decDecode ((s.data.reverse.takeWhile (fun c => c ≠ '-')).reverse) 0
def dashFree (s : String) : Prop := ∀ c ∈ s.data, c ≠ '-'
/-! ### JS string operations used by the source -/
def isWsChar (c : Char) : Bool :=
  c == ' ' || c == '\t' || c == '\n' || c == '\r'
/-- JS `String.prototype.trim` (restricted to the common whitespace chars). -/
def trimStr (s : String) : String :=
  String.mk (((s.data.dropWhile isWsChar).reverse.dropWhile isWsChar).reverse)
/-- JS `str.substring(0, n)`. -/
def jsSubstring (s : String) (n : Nat) : String := String.mk (s.data.take n)
/-! ### `simpleHash` from src/utils.js (same code in anchorGenerator.js) -/
/-- JS `ToInt32`: wrap an integer to the signed 32-bit range. -/
def toInt32 (z : Int) : Int :=
  let r := z % 4294967296
  if r < 2147483648 then r else r - 4294967296
/-- One loop iteration: `hash = ((hash << 5) - hash) + char; hash = hash & hash`. -/
def hashStep (h : Int) (c : Nat) : Int :=
  toInt32 (toInt32 (h * 32) - h + (c : Int))
def hashVal (s : String) : Int :=
  s.data.foldl (fun h c => hashStep h c.toNat) 0
/-- `simpleHash` from src/utils.js: accumulate, `Math.abs`, `toString(36)`. -/
def simpleHash (s : String) : String := toBase36 (hashVal s).natAbs

/-! ### DOM model

An `Elem` carries the stable, per-element data: its reference identity
(`eid`), the `id` attribute, the `data-message-id` attribute, and the
message role the platform adapter reads off the element's attributes.
A `Dom` is one snapshot of the page, supplying everything time-varying:
the candidate list returned by `querySelectorAll` on the message selector,
document attachment, text content, validity, sibling position, and whether
the conversation container is currently locatable. -/

inductive Role where
  | user
  | assistant
  | unknown
deriving DecidableEq, Repr

structure Elem where
  eid : Nat
  idAttr : Option String
  dataMsgId : Option String
  role : Role
deriving DecidableEq, Repr

structure Dom where
  candidates : List Elem
  contains : Elem → Bool
  textContent : Elem → String
  isValidMessage : Elem → Bool
  siblingPos : Elem → Nat
  hasContainer : Bool

/-! ### AnchorGenerator (src/anchorGenerator.js) -/

structure GenState where
  anchorMap : List (Elem × String)
  idMap : List (String × Elem)
  contentCache : List (Elem × String)
  sequenceCounter : Nat
deriving DecidableEq, Repr

namespace AnchorGenerator

def initState : GenState := ⟨[], [], [], 0⟩

/-- `hashContent`: digest of the first 200 characters of the trimmed text. -/
def hashContent (txt : String) : String :=
  simpleHash (jsSubstring (trimStr txt) 200)

/-- `element.id || element.getAttribute('data-message-id')` (JS falsiness:
an absent or empty attribute is `none`). -/
def externalId (e : Elem) : Option String :=
  e.idAttr.orElse (fun _ => e.dataMsgId)

/-- `generateAnchorId`: external id when present, otherwise position +
content digest + the post-incremented sequence counter. -/
def generateAnchorId (st : GenState) (dom : Dom) (e : Elem) :
    String × GenState :=
  match externalId e with
  | some i => ("anchor-" ++ i, st)
  | none =>
      ("anchor-" ++ natToDec (dom.siblingPos e) ++ "-"
         ++ hashContent (dom.textContent e) ++ "-"
         ++ natToDec st.sequenceCounter,
       { st with sequenceCounter := st.sequenceCounter + 1 })

/-- `getOrCreateAnchorId`: return the stored id unchanged if the element is
already registered; otherwise generate, register both directions, and cache
the initial content hash. -/
def getOrCreateAnchorId (st : GenState) (dom : Dom) (e : Elem) :
    String × GenState :=
  match alookup st.anchorMap e with
  | some anchorId => (anchorId, st)
  | none =>
      let p := generateAnchorId st dom e
      let st2 := { p.2 with
        anchorMap := aset p.2.anchorMap e p.1,
        idMap := aset p.2.idMap p.1 e }
      (p.1, { st2 with
        contentCache := aset st2.contentCache e (hashContent (dom.textContent e)) })

/-- `hasContentChanged`: compare the cached digest with a fresh one. -/
def hasContentChanged (st : GenState) (dom : Dom) (e : Elem) : Bool :=
  match alookup st.contentCache e with
  | none => true
  | some oldHash => oldHash != hashContent (dom.textContent e)

def updateContentCache (st : GenState) (dom : Dom) (e : Elem) : GenState :=
  { st with contentCache := aset st.contentCache e (hashContent (dom.textContent e)) }

def removeAnchor (st : GenState) (e : Elem) : GenState :=
  let st1 :=
    match alookup st.anchorMap e with
    | some anchorId => { st with idMap := aerase st.idMap anchorId }
    | none => st
  { st1 with
    anchorMap := aerase st1.anchorMap e,
    contentCache := aerase st1.contentCache e }

def getElementByAnchorId (st : GenState) (anchorId : String) : Option Elem :=
  alookup st.idMap anchorId

/-- `clear`: empty every map and reset the sequence counter. -/
def clear (_st : GenState) : GenState := initState

end AnchorGenerator

/-! ### MessageDetector (src/messageDetector.js) -/

structure MessageData where
  id : String
  elem : Elem
  role : Role
  timestamp : Nat
  lastContent : String
  lastUpdate : Nat
deriving DecidableEq, Repr

structure MDState where
  messages : List (Elem × MessageData)
deriving DecidableEq, Repr

inductive BatchType where
  | added
  | updated
  | removed
deriving DecidableEq, Repr

structure ChangeEvent where
  btype : BatchType
  messages : List MessageData
deriving DecidableEq, Repr

namespace MessageDetector

def initState : MDState := ⟨[]⟩

/-- `generateMessageId`: `msg-` + element id, or position + digest of the
first 100 characters of the (untrimmed) text. -/
def generateMessageId (dom : Dom) (e : Elem) : String :=
  match e.idAttr with
  | some i => "msg-" ++ i
  | none =>
      "msg-" ++ natToDec (dom.siblingPos e) ++ "-"
        ++ simpleHash (jsSubstring (dom.textContent e) 100)

def createMessageData (dom : Dom) (now : Nat) (e : Elem) : MessageData :=
  { id := generateMessageId dom e
    elem := e
    role := e.role
    timestamp := now
    lastContent := trimStr (dom.textContent e)
    lastUpdate := now }

/-- One candidate of a discovery pass: tracked and collected when valid and
not already known. -/
def detectStep (dom : Dom) (now : Nat) (acc : MDState × List MessageData)
    (e : Elem) : MDState × List MessageData :=
  if dom.isValidMessage e && (alookup acc.1.messages e).isNone then
    let m := createMessageData dom now e
    (⟨aset acc.1.messages e m⟩, acc.2 ++ [m])
  else acc

/-- `detectExistingMessages`: for each candidate that is valid and not yet
tracked, create a record and collect it into the added batch. -/
def detectExistingMessages (dom : Dom) (now : Nat) (st : MDState) :
    MDState × List MessageData :=
  dom.candidates.foldl (detectStep dom now) (st, [])

/-- `cleanupRemovedMessages`: drop every record whose element is no longer
attached to the document, collecting the removed batch in map order. -/
def cleanupRemovedMessages (dom : Dom) (st : MDState) :
    MDState × List MessageData :=
  (⟨st.messages.filter (fun p => dom.contains p.1)⟩,
   (st.messages.filter (fun p => !(dom.contains p.1))).map Prod.snd)

/-- One record's streaming check: notify only when the trimmed text length
changed by more than 10 characters. -/
def streamingUpdate (dom : Dom) (now : Nat) (p : Elem × MessageData) :
    Option MessageData :=
  let currentText := trimStr (dom.textContent p.1)
  let previousText := p.2.lastContent
  if ((currentText.length : Int) - (previousText.length : Int)).natAbs > 10 then
    some { p.2 with lastContent := currentText, lastUpdate := now }
  else none

/-- `updateStreamingMessages`: refresh drifted records in place and collect
the updated batch. -/
def updateStreamingMessages (dom : Dom) (now : Nat) (st : MDState) :
    MDState × List MessageData :=
  (⟨st.messages.map (fun p =>
      match streamingUpdate dom now p with
      | some m => (p.1, m)
      | none => p)⟩,
   st.messages.filterMap (streamingUpdate dom now))

end MessageDetector

/-! ### AnchorUI (src/anchorUI.js, bookkeeping state) -/

structure UIState where
  messageLines : List String
  messageElements : List (String × Elem)
  messageTexts : List (String × String)
deriving DecidableEq, Repr

def collapseWsAux : Bool → List Char → List Char
  | _, [] => []
  | prevWs, c :: cs =>
      if isWsChar c then
        if prevWs then collapseWsAux true cs
        else ' ' :: collapseWsAux true cs
      else c :: collapseWsAux false cs

/-- JS `text.replace(/\s+/g, ' ')`: each maximal whitespace run becomes one
space. -/
def collapseWs (s : String) : String := String.mk (collapseWsAux false s.data)

namespace AnchorUI

def initState : UIState := ⟨[], [], []⟩

/-- `extractMessageText`: trimmed text, truncated past 100 characters, with
whitespace runs collapsed (the nested-container query is modelled as the
element's own text content). -/
def extractMessageText (dom : Dom) (e : Elem) : String :=
  let t := trimStr (dom.textContent e)
  let t2 := if t.length > 100 then jsSubstring t 100 ++ "..." else t
  let t3 := collapseWs t2
  if t3 = "" then "Empty message" else t3

/-- `addMessageLine`: no-op when a line with this id already exists;
otherwise append the line and record element and preview text. -/
def addMessageLine (ui : UIState) (dom : Dom) (anchorId : String) (e : Elem) :
    UIState :=
  if anchorId ∈ ui.messageLines then ui
  else
    { messageLines := ui.messageLines ++ [anchorId]
      messageElements := aset ui.messageElements anchorId e
      messageTexts := aset ui.messageTexts anchorId (extractMessageText dom e) }

def removeMessageLine (ui : UIState) (anchorId : String) : UIState :=
  { messageLines := ui.messageLines.erase anchorId
    messageElements := aerase ui.messageElements anchorId
    messageTexts := aerase ui.messageTexts anchorId }

def clear (_ui : UIState) : UIState := initState

end AnchorUI

/-! ### AnchorInjector (src/anchorInjector.js) and the combined system -/

structure Sys where
  md : MDState
  gen : GenState
  injectedAnchors : List (Elem × String)
  ui : UIState
deriving DecidableEq, Repr

namespace AnchorInjector

def initSys : Sys :=
  ⟨MessageDetector.initState, AnchorGenerator.initState, [], AnchorUI.initState⟩

/-- `injectAnchorForMessage`: skip when already injected, skip non-user
roles, otherwise assign an anchor id, add the UI line, and record it. -/
def injectAnchorForMessage (sys : Sys) (dom : Dom) (m : MessageData) : Sys :=
  let e := m.elem
  if (alookup sys.injectedAnchors e).isSome then sys
  else if e.role ≠ Role.user then sys
  else
    let p := AnchorGenerator.getOrCreateAnchorId sys.gen dom e
    { sys with
      gen := p.2
      ui := AnchorUI.addMessageLine sys.ui dom p.1 e
      injectedAnchors := aset sys.injectedAnchors e p.1 }

/-- `removeAnchorForMessage`: when the element has an injected anchor,
remove the UI line, the generator registration, and the tracking entry. -/
def removeAnchorForMessage (sys : Sys) (m : MessageData) : Sys :=
  match alookup sys.injectedAnchors m.elem with
  | some anchorId =>
      { sys with
        ui := AnchorUI.removeMessageLine sys.ui anchorId
        gen := AnchorGenerator.removeAnchor sys.gen m.elem
        injectedAnchors := aerase sys.injectedAnchors m.elem }
  | none => sys

/-- One record of `handleStreamingUpdates`: refresh the generator's content
cache when it drifted; the anchor id itself is untouched. -/
def streamingCacheRefresh (sys : Sys) (dom : Dom) (m : MessageData) : Sys :=
  if AnchorGenerator.hasContentChanged sys.gen dom m.elem then
    { sys with gen := AnchorGenerator.updateContentCache sys.gen dom m.elem }
  else sys

/-- `handleMessagesChanged`: dispatch one change event to the injector. -/
def handleMessagesChanged (sys : Sys) (dom : Dom) (ev : ChangeEvent) : Sys :=
  match ev.btype with
  | .added => ev.messages.foldl (fun s m => injectAnchorForMessage s dom m) sys
  | .removed => ev.messages.foldl (fun s m => removeAnchorForMessage s m) sys
  | .updated => ev.messages.foldl (fun s m => streamingCacheRefresh s dom m) sys

/-- Detection phase of a pass: run `detectExistingMessages` and deliver the
added batch (when non-empty) to the registered callback synchronously. -/
def addedPhase (sys : Sys) (dom : Dom) (now : Nat) : Sys × List ChangeEvent :=
  let p := MessageDetector.detectExistingMessages dom now sys.md
  let s1 := { sys with md := p.1 }
  if p.2.isEmpty then (s1, [])
  else (handleMessagesChanged s1 dom ⟨.added, p.2⟩, [⟨.added, p.2⟩])

def removedPhase (sys : Sys) (dom : Dom) : Sys × List ChangeEvent :=
  let p := MessageDetector.cleanupRemovedMessages dom sys.md
  let s1 := { sys with md := p.1 }
  if p.2.isEmpty then (s1, [])
  else (handleMessagesChanged s1 dom ⟨.removed, p.2⟩, [⟨.removed, p.2⟩])

def updatedPhase (sys : Sys) (dom : Dom) (now : Nat) : Sys × List ChangeEvent :=
  let p := MessageDetector.updateStreamingMessages dom now sys.md
  let s1 := { sys with md := p.1 }
  if p.2.isEmpty then (s1, [])
  else (handleMessagesChanged s1 dom ⟨.updated, p.2⟩, [⟨.updated, p.2⟩])

/-- One reconciliation pass, the body of `debouncedDetect`:
`detectExistingMessages`, then `cleanupRemovedMessages`, then
`updateStreamingMessages`, each batch delivered synchronously through
`handleMessagesChanged` when non-empty. -/
def reconciliationPass (sys : Sys) (dom : Dom) (now : Nat) :
    Sys × List ChangeEvent :=
  let a := addedPhase sys dom now
  let r := removedPhase a.1 dom
  let u := updatedPhase r.1 dom now
  (u.1, a.2 ++ r.2 ++ u.2)

def runPasses (sys : Sys) (passes : List (Dom × Nat)) : Sys :=
  passes.foldl (fun s p => (reconciliationPass s p.1 p.2).1) sys

/-- `clearAllAnchors`: remove every injected anchor from the UI, clear the
injected map, clear the detector (whose `clearMessages` stops and reconnects
the observer; `reconnectObserver` re-runs detection and cleanup when the
container is still locatable, firing events through the live callback), and
finally clear the generator. -/
def clearAllAnchors (sys : Sys) (dom : Dom) (now : Nat) : Sys :=
  let ui1 := sys.injectedAnchors.foldl
    (fun u p => AnchorUI.removeMessageLine u p.2) sys.ui
  let s1 := { sys with ui := ui1, injectedAnchors := [] }
  let s2 := { s1 with md := MessageDetector.initState }
  let s3 :=
    if dom.hasContainer then
      let a := addedPhase s2 dom now
      (removedPhase a.1 dom).1
    else s2
  { s3 with gen := AnchorGenerator.initState }

end AnchorInjector

/-! ### Debounce model (`debouncedDetect` in src/messageDetector.js)

`debouncedDetect` is the `MutationObserver` callback: every raw mutation
notification clears the pending timer and arms a new one `DEBOUNCE_DELAY`
milliseconds out; the reconciliation pass body runs only when a timer
expires with no later notification having replaced it.  `debounceRun`
consumes the (time-ordered) mutation notification times and counts how many
reconciliation passes are triggered; a pending timer whose deadline passed
strictly before the next notification has fired. -/

def DEBOUNCE_DELAY : Nat := 150

def debounceRun (delay : Nat) : List Nat → Option Nat → Nat
  | [], none => 0
  | [], some _ => 1
  | t :: ts, none => debounceRun delay ts (some (t + delay))
  | t :: ts, some d =>
      if d < t then 1 + debounceRun delay ts (some (t + delay))
      else debounceRun delay ts (some (t + delay))

/-- Number of reconciliation passes triggered by a burst of raw mutation
notifications at the given (non-decreasing) times. -/
def reconciliationPassCount (times : List Nat) : Nat :=
  debounceRun DEBOUNCE_DELAY times none

/-! ### Discovery with a throwing validity predicate (for error handling)

JS `elements.forEach(cb)` lets an exception inside `cb` propagate, aborting
the iteration; `detectExistingMessages` wraps no try/catch around
`isValidMessage`/`createMessageData`, so this models the candidate loop with
a validity predicate that may throw.  The boolean result records whether an
exception escaped the pass. -/

def detectGoE (validE : Elem → Except Unit Bool) (dom : Dom) (now : Nat) :
    List Elem → MDState → List MessageData → MDState × List MessageData × Bool
  | [], st, acc => (st, acc, false)
  | e :: rest, st, acc =>
      match validE e with
      | .error _ => (st, acc, true)
      | .ok v =>
          if v && (alookup st.messages e).isNone then
            let m := MessageDetector.createMessageData dom now e
            detectGoE validE dom now rest ⟨aset st.messages e m⟩ (acc ++ [m])
          else detectGoE validE dom now rest st acc

def detectExistingMessagesE (validE : Elem → Except Unit Bool) (dom : Dom)
    (now : Nat) (st : MDState) : MDState × List MessageData × Bool :=
  detectGoE validE dom now dom.candidates st []

/-- The `debouncedDetect` body with a throwing validity predicate: when the
exception escapes `detectExistingMessages`, no added event is emitted and
the cleanup and streaming phases of the pass never run. -/
def debouncedDetectE (validE : Elem → Except Unit Bool) (sys : Sys)
    (dom : Dom) (now : Nat) : Sys × List ChangeEvent × Bool :=
  let d := detectExistingMessagesE validE dom now sys.md
  let s1 := { sys with md := d.1 }
  if d.2.2 then (s1, [], true)
  else
    let s2 :=
      if d.2.1.isEmpty then (s1, ([] : List ChangeEvent))
      else (AnchorInjector.handleMessagesChanged s1 dom ⟨.added, d.2.1⟩,
            [(⟨.added, d.2.1⟩ : ChangeEvent)])
    let r := AnchorInjector.removedPhase s2.1 dom
    let u := AnchorInjector.updatedPhase r.1 dom now
    (u.1, s2.2 ++ r.2 ++ u.2, false)


/-! ### Generator operation sequences (identity assigner runs) -/

inductive GenOp where
  | create (dom : Dom) (e : Elem)
  | remove (e : Elem)
  | refreshCache (dom : Dom) (e : Elem)
  | clearOp

def applyGenOp (st : GenState) : GenOp → GenState
  | .create dom e => (AnchorGenerator.getOrCreateAnchorId st dom e).2
  | .remove e => AnchorGenerator.removeAnchor st e
  | .refreshCache dom e => AnchorGenerator.updateContentCache st dom e
  | .clearOp => AnchorGenerator.clear st

def runGen (ops : List GenOp) : GenState :=
  ops.foldl applyGenOp AnchorGenerator.initState

/-- The element carries no externally-provided identifier, so its identity
comes from the fallback path (position + digest + sequence number). -/
def fallbackElem (e : Elem) : Bool := e.idAttr.isNone && e.dataMsgId.isNone

def fallbackOnly : GenOp → Bool
  | .create _ e => fallbackElem e
  | _ => true

/-- Invariant of the generator state: every registered identifier decodes to
a sequence component below the counter, sequence components are pairwise
distinct, the reverse map mirrors the forward map, and registered elements
are distinct. -/
def GenInv (st : GenState) : Prop :=
  (∀ p ∈ st.anchorMap, parseSeq p.2 < st.sequenceCounter) ∧
  st.anchorMap.Pairwise (fun p q => parseSeq p.2 ≠ parseSeq q.2) ∧
  st.idMap = st.anchorMap.map (fun p => (p.2, p.1)) ∧
  (akeys st.anchorMap).Nodup

/-- Linking invariant of the combined system: the injected-anchor map
mirrors the generator registrations, the UI lines are exactly the injected
anchor ids, injected elements are exactly the tracked user-role elements,
tracked keys are distinct, and each record stores its own element. -/
def SysInv (s : Sys) : Prop :=
  GenInv s.gen ∧
  s.injectedAnchors = s.gen.anchorMap ∧
  (akeys s.md.messages).Nodup ∧
  akeys s.injectedAnchors
    = (akeys s.md.messages).filter (fun e => e.role = Role.user) ∧
  s.ui.messageLines = s.injectedAnchors.map Prod.snd ∧
  (∀ p ∈ s.md.messages, p.2.elem = p.1)

/-! ### Concrete fixtures used by closed instances -/

def eU : Elem := ⟨1, none, none, .user⟩
def eU2 : Elem := ⟨2, none, none, .user⟩
def eA : Elem := ⟨3, none, none, .assistant⟩
def eD1 : Elem := ⟨4, none, some "dup", .user⟩
def eD2 : Elem := ⟨5, none, some "dup", .user⟩

/-- A page with one user message and one assistant message. -/
def domA : Dom :=
  { candidates := [eU, eA]
    contains := fun _ => true
    textContent := fun e => if e.eid = 1 then "hello world" else "assistant reply"
    isValidMessage := fun _ => true
    siblingPos := fun e => e.eid - 1
    hasContainer := true }

/-- The system after one reconciliation pass over `domA`. -/
def sysA : Sys := (AnchorInjector.reconciliationPass AnchorInjector.initSys domA 5).1

/-- `domA` after the user message detached and the assistant message
streamed more than ten further characters. -/
def domB : Dom :=
  { domA with
    contains := fun e => !(e.eid == 1)
    textContent := fun e =>
      if e.eid = 1 then "hello world"
      else "assistant reply with much longer streamed content" }

/-- `domA` after the user message's content was completely rewritten. -/
def domDrift : Dom :=
  { domA with
    textContent := fun e =>
      if e.eid = 1 then "hello world completely rewritten by streaming"
      else "assistant reply" }

/-- `domA` after a single trailing space was appended to the user text. -/
def domTrail : Dom :=
  { domA with
    textContent := fun e =>
      if e.eid = 1 then "hello world " else "assistant reply" }

/-- `domA` with the user text replaced by an equally long different text. -/
def domSameLen : Dom :=
  { domA with
    textContent := fun e =>
      if e.eid = 1 then "HELLO WORLD" else "assistant reply" }

/-- The tracked record for `eU` created from `domA`. -/
def mU : MessageData := MessageDetector.createMessageData domA 5 eU

/-- The generator state after registering `eU` from `domA`. -/
def genA : GenState :=
  (AnchorGenerator.getOrCreateAnchorId AnchorGenerator.initState domA eU).2

/-- Two distinct elements exposing the same platform message id. -/
def domD : Dom :=
  { candidates := [eD1, eD2]
    contains := fun _ => true
    textContent := fun _ => "duplicated platform id"
    isValidMessage := fun _ => true
    siblingPos := fun e => e.eid - 4
    hasContainer := true }

def genD : GenState :=
  (AnchorGenerator.getOrCreateAnchorId
    (AnchorGenerator.getOrCreateAnchorId AnchorGenerator.initState domD eD1).2
    domD eD2).2

/-- A validity predicate that throws on the first candidate. -/
def validThrow (e : Elem) : Except Unit Bool :=
  if e.eid = 1 then .error () else .ok true

def domThrow : Dom :=
  { candidates := [eU, eU2]
    contains := fun _ => true
    textContent := fun e => if e.eid = 1 then "first candidate" else "second candidate"
    isValidMessage := fun _ => true
    siblingPos := fun e => e.eid - 1
    hasContainer := true }

/-- The page during a chat switch: old container gone, nothing matches. -/
def domGone : Dom :=
  { candidates := []
    contains := fun _ => false
    textContent := fun _ => ""
    isValidMessage := fun _ => false
    siblingPos := fun _ => 0
    hasContainer := false }

/-- A fresh conversation container with one new user message. -/
def domFresh : Dom :=
  { candidates := [eU2]
    contains := fun e => e.eid == 2
    textContent := fun _ => "fresh conversation message"
    isValidMessage := fun _ => true
    siblingPos := fun _ => 0
    hasContainer := true }

/-! ### Helper lemmas -/

theorem alookup_eq_none_of_not_mem {α β : Type} [DecidableEq α]
    (l : List (α × β)) (k : α) (h : k ∉ akeys l) : alookup l k = none := by
  induction l with
  | nil => rfl
  | cons p t ih =>
    simp only [akeys, List.map_cons, List.mem_cons] at h
    push_neg at h
    simp only [alookup]
    rw [if_neg (by exact fun hh => h.1 hh.symm)]
    exact ih (by simpa [akeys] using h.2)
theorem aset_eq_append_of_not_mem {α β : Type} [DecidableEq α]
    (l : List (α × β)) (k : α) (v : β) (h : k ∉ akeys l) :
    aset l k v = l ++ [(k, v)] := by
  induction l with
  | nil => rfl
  | cons p t ih =>
    simp only [akeys, List.map_cons, List.mem_cons] at h
    push_neg at h
    simp only [aset]
    rw [if_neg (by exact fun hh => h.1 hh.symm)]
    rw [ih (by simpa [akeys] using h.2)]
    rfl
theorem aerase_eq_filter_of_nodup {α β : Type} [DecidableEq α]
    (l : List (α × β)) (k : α) (h : (akeys l).Nodup) :
    aerase l k = l.filter (fun p => p.1 ≠ k) := by
  induction l with
  | nil => rfl
  | cons p t ih =>
    simp only [akeys, List.map_cons, List.nodup_cons] at h
    by_cases hk : p.1 = k
    · subst hk
      have hfilter : List.filter (fun q : α × β => !decide (q.1 = p.1)) t = t :=
        List.filter_eq_self.2 (fun a ha => by
          simp only [Bool.not_eq_true', decide_eq_false_iff_not]
          intro hak
          exact h.1 (hak ▸ List.mem_map.2 ⟨a, ha, rfl⟩))
      simp [aerase, List.filter_cons, hfilter]
    · simp only [aerase, if_neg hk]
      rw [ih h.2]
      simp [List.filter_cons, hk]
theorem alookup_append_right {α β : Type} [DecidableEq α]
    (l₁ l₂ : List (α × β)) (k : α) (h : k ∉ akeys l₁) :
    alookup (l₁ ++ l₂) k = alookup l₂ k := by
  induction l₁ with
  | nil => rfl
  | cons p t ih =>
    simp only [akeys, List.map_cons, List.mem_cons] at h
    push_neg at h
    simp only [List.cons_append, alookup]
    rw [if_neg (by exact fun hh => h.1 hh.symm)]
    exact ih (by simpa [akeys] using h.2)
theorem alookup_isSome_of_mem {α β : Type} [DecidableEq α]
    (l : List (α × β)) (k : α) (v : β) (h : (k, v) ∈ l) :
    ∃ w, alookup l k = some w := by
  induction l with
  | nil => cases h
  | cons p t ih =>
    rcases List.mem_cons.1 h with h1 | h2
    · exact ⟨p.2, by simp [alookup, ← h1]⟩
    · by_cases hk : p.1 = k
      · exact ⟨p.2, by simp [alookup, hk]⟩
      · obtain ⟨w, hw⟩ := ih h2
        exact ⟨w, by simp [alookup, hk, hw]⟩
theorem alookup_of_mem_nodup {α β : Type} [DecidableEq α]
    (l : List (α × β)) (k : α) (v : β) (hnd : (akeys l).Nodup)
    (h : (k, v) ∈ l) : alookup l k = some v := by
  induction l with
  | nil => cases h
  | cons p t ih =>
    simp only [akeys, List.map_cons, List.nodup_cons] at hnd
    rcases List.mem_cons.1 h with h1 | h2
    · simp [alookup, ← h1]
    · have hk : p.1 ≠ k := fun hh =>
        hnd.1 (by rw [hh]; exact List.mem_map.2 ⟨(k, v), h2, rfl⟩)
      simp only [alookup, if_neg hk]
      exact ih hnd.2 h2
theorem mem_of_alookup_eq_some {α β : Type} [DecidableEq α]
    (l : List (α × β)) (k : α) (v : β) (h : alookup l k = some v) :
    (k, v) ∈ l := by
  induction l with
  | nil => simp [alookup] at h
  | cons p t ih =>
    simp only [alookup] at h
    by_cases hk : p.1 = k
    · rw [if_pos hk] at h
      have hp : p = (k, v) := by
        obtain ⟨a, b⟩ := p
        simp only [Option.some.injEq] at h
        simp_all
      rw [← hp]
      exact List.mem_cons_self _ _
    · rw [if_neg hk] at h
      exact List.mem_cons_of_mem _ (ih h)
theorem digitsFuel_eq_digits (b : Nat) (hb : 2 ≤ b) :
    ∀ (fuel n : Nat), n ≤ fuel → digitsFuel b fuel n = Nat.digits b n := by
  intro fuel
  induction fuel with
  | zero =>
    intro n hn
    interval_cases n
    simp [digitsFuel]
  | succ fuel ih =>
    intro n hn
    by_cases h0 : n = 0
    · subst h0; simp [digitsFuel]
    · rw [show digitsFuel b (fuel + 1) n = n % b :: digitsFuel b fuel (n / b) from by
        simp [digitsFuel, h0]]
      rw [Nat.digits_def' (by omega : 1 < b) (Nat.pos_of_ne_zero h0)]
      rw [ih (n / b) (by
        have := Nat.div_lt_self (Nat.pos_of_ne_zero h0) (by omega : 1 < b)
        omega)]
theorem digitsBase_eq (b n : Nat) (hb : 2 ≤ b) :
    digitsBase b n = Nat.digits b n :=
  digitsFuel_eq_digits b hb n n le_rfl
theorem decDecode_append (l₁ l₂ : List Char) (acc : Nat) :
    decDecode (l₁ ++ l₂) acc = decDecode l₂ (decDecode l₁ acc) := by
  induction l₁ generalizing acc with
  | nil => rfl
  | cons c cs ih => simp [decDecode, ih]
theorem decDigitChar_decodes (d : Nat) (h : d < 10) :
    (decDigitChar d).toNat - 48 = d := by
  interval_cases d <;> decide
theorem decDecode_digits (ds : List Nat) (hds : ∀ d ∈ ds, d < 10) (acc : Nat) :
    decDecode (ds.reverse.map decDigitChar) acc =
      acc * 10 ^ ds.length + Nat.ofDigits 10 ds := by
  induction ds generalizing acc with
  | nil => simp [decDecode, Nat.ofDigits]
  | cons d ds ih =>
    have hd : d < 10 := hds d (by simp)
    have hrest : ∀ x ∈ ds, x < 10 := fun x hx => hds x (by simp [hx])
    simp only [List.reverse_cons, List.map_append, List.map_cons, List.map_nil]
    rw [decDecode_append, ih hrest]
    simp only [decDecode, decDigitChar_decodes d hd]
    rw [Nat.ofDigits_cons]
    simp only [List.length_cons, pow_succ]
    ring
theorem decDecode_natToDec (n : Nat) : decDecode (natToDec n).data 0 = n := by
  by_cases h : n = 0
  · subst h; rfl
  · have hds : ∀ d ∈ Nat.digits 10 n, d < 10 := fun d hd =>
      Nat.digits_lt_base (by norm_num) hd
    simp only [natToDec, if_neg h, digitsBase_eq 10 n (by norm_num)]
    rw [decDecode_digits _ hds 0]
    simp [Nat.ofDigits_digits]
theorem dashFree_natToDec (n : Nat) : dashFree (natToDec n) := by
  intro c hc
  by_cases h : n = 0
  · subst h
    have hc' : c ∈ ['0'] := hc
    simp only [List.mem_singleton] at hc'
    subst hc'; decide
  · simp only [natToDec, if_neg h, digitsBase_eq 10 n (by norm_num)] at hc
    obtain ⟨d, hd, rfl⟩ := List.mem_map.1 hc
    have hd10 : d < 10 := Nat.digits_lt_base (by norm_num) (List.mem_reverse.1 hd)
    interval_cases d <;> decide
theorem dashFree_toBase36 (n : Nat) : dashFree (toBase36 n) := by
  intro c hc
  by_cases h : n = 0
  · subst h
    have hc' : c ∈ ['0'] := hc
    simp only [List.mem_singleton] at hc'
    subst hc'; decide
  · simp only [toBase36, if_neg h, digitsBase_eq 36 n (by norm_num)] at hc
    obtain ⟨d, hd, rfl⟩ := List.mem_map.1 hc
    have hd36 : d < 36 := Nat.digits_lt_base (by norm_num) (List.mem_reverse.1 hd)
    interval_cases d <;> decide
theorem takeWhile_append_of_forall {p : Char → Bool} (l r : List Char)
    (hl : ∀ c ∈ l, p c) (a : Char) (ha : p a = false) :
    (l ++ a :: r).takeWhile p = l := by
  induction l with
  | nil => simp [List.takeWhile, ha]
  | cons c cs ih =>
    have hc : p c = true := hl c (by simp)
    simp only [List.cons_append, List.takeWhile_cons, hc, if_true]
    rw [ih (fun x hx => hl x (by simp [hx]))]
/-- Extracting the trailing decimal component from a dash-separated
identifier: the suffix after the last dash decodes back to the number. -/
theorem parseSeq_append_dash_dec (front : String) (n : Nat) :
    parseSeq (front ++ "-" ++ natToDec n) = n := by
  have hdata : (front ++ "-" ++ natToDec n).data
      = front.data ++ '-' :: (natToDec n).data := by
    simp [String.data_append]
  have hdf : ∀ c ∈ (natToDec n).data.reverse, (c ≠ '-' : Bool) := by
    intro c hc
    have := dashFree_natToDec n c (List.mem_reverse.1 hc)
    simpa using this
  simp only [parseSeq, hdata, List.reverse_append, List.reverse_cons]
  rw [List.append_assoc, List.singleton_append]
  rw [takeWhile_append_of_forall _ _ hdf '-' (by decide)]
  rw [List.reverse_reverse]
  exact decDecode_natToDec n
theorem toInt32_bounds (z : Int) :
    -2147483648 ≤ toInt32 z ∧ toInt32 z < 2147483648 := by
  have h1 : 0 ≤ z % 4294967296 := Int.emod_nonneg z (by norm_num)
  have h2 : z % 4294967296 < 4294967296 := Int.emod_lt_of_pos z (by norm_num)
  simp only [toInt32]
  split <;> omega
theorem hashVal_bounds (s : String) :
    -2147483648 ≤ hashVal s ∧ hashVal s < 2147483648 := by
  have key : ∀ (l : List Char) (a : Int),
      -2147483648 ≤ a ∧ a < 2147483648 →
      -2147483648 ≤ l.foldl (fun h c => hashStep h c.toNat) a ∧
        l.foldl (fun h c => hashStep h c.toNat) a < 2147483648 := by
    intro l
    induction l with
    | nil => intro a ha; simpa using ha
    | cons c cs ih =>
      intro a _
      simp only [List.foldl_cons]
      exact ih _ (toInt32_bounds _)
  exact key s.data 0 (by norm_num)

theorem alookup_isNone_iff {α β : Type} [DecidableEq α]
    (l : List (α × β)) (k : α) : alookup l k = none ↔ k ∉ akeys l := by
  constructor
  · intro h hk
    obtain ⟨p, hp, hfst⟩ := List.mem_map.1 hk
    obtain ⟨w, hw⟩ := alookup_isSome_of_mem l k p.2
      (by rw [show (k, p.2) = p from by rw [← hfst]]; exact hp)
    rw [h] at hw
    cases hw
  · exact alookup_eq_none_of_not_mem l k

theorem aerase_of_not_mem {α β : Type} [DecidableEq α]
    (l : List (α × β)) (k : α) (h : k ∉ akeys l) : aerase l k = l := by
  induction l with
  | nil => rfl
  | cons p t ih =>
    simp only [akeys, List.map_cons, List.mem_cons] at h
    push_neg at h
    have hk : ¬ p.1 = k := fun hh => h.1 hh.symm
    simp only [aerase, if_neg hk]
    rw [ih (by simpa [akeys] using h.2)]

theorem akeys_aerase {α β : Type} [DecidableEq α] (l : List (α × β)) (k : α) :
    akeys (aerase l k) = (akeys l).erase k := by
  induction l with
  | nil => rfl
  | cons p t ih =>
    by_cases hk : p.1 = k
    · simp [aerase, akeys, List.erase_cons, hk]
    · simp only [aerase, if_neg hk, akeys, List.map_cons, List.erase_cons]
      rw [if_neg (by simpa using hk)]
      exact congrArg _ ih

theorem akeys_filter {α β : Type} (l : List (α × β)) (q : α → Bool) :
    akeys (l.filter (fun p => q p.1)) = (akeys l).filter q := by
  induction l with
  | nil => rfl
  | cons p t ih =>
    simp only [akeys, List.map_cons, List.filter_cons] at ih ⊢
    by_cases hq : q p.1
    · simp [hq, ih]
    · simp [hq, ih]

theorem aerase_map_swap {α β : Type} [DecidableEq α] [DecidableEq β]
    (l : List (α × β)) (k : α) (v : β)
    (hvals : l.Pairwise (fun p q => p.2 ≠ q.2))
    (h : alookup l k = some v) :
    aerase (l.map (fun p => (p.2, p.1))) v = (aerase l k).map (fun p => (p.2, p.1)) := by
  induction l with
  | nil => simp [alookup] at h
  | cons p t ih =>
    simp only [alookup] at h
    by_cases hk : p.1 = k
    · rw [if_pos hk] at h
      injection h with h2
      simp [aerase, List.map_cons, h2, hk]
    · rw [if_neg hk] at h
      have hpair : (k, v) ∈ t := mem_of_alookup_eq_some t k v h
      have hne : p.2 ≠ v := by
        have := (List.pairwise_cons.1 hvals).1 (k, v) hpair
        simpa using this
      simp only [List.map_cons, aerase, if_neg hne, if_neg hk]
      rw [ih (List.pairwise_cons.1 hvals).2 h]

theorem map_snd_swap_keys {α β : Type} (l : List (α × β)) :
    akeys (l.map (fun p => (p.2, p.1))) = l.map Prod.snd := by
  simp [akeys, List.map_map]

theorem map_snd_erase {α β : Type} [DecidableEq α] [DecidableEq β]
    (l : List (α × β)) (k : α) (v : β)
    (hvals : l.Pairwise (fun p q => p.2 ≠ q.2))
    (h : alookup l k = some v) :
    (l.map Prod.snd).erase v = (aerase l k).map Prod.snd := by
  rw [← map_snd_swap_keys l, ← map_snd_swap_keys (aerase l k),
    ← aerase_map_swap l k v hvals h, akeys_aerase]

theorem trimStr_append_space (s : String) : trimStr (s ++ " ") = trimStr s := by
  have hdata : (s ++ " ").data = s.data ++ [' '] := by
    rw [String.data_append]
  simp only [trimStr, hdata]
  rw [List.dropWhile_append]
  by_cases hall : (s.data.dropWhile isWsChar).isEmpty
  · rw [if_pos hall]
    have hnil : s.data.dropWhile isWsChar = [] := by
      simpa [List.isEmpty_iff] using hall
    rw [hnil]
    rfl
  · rw [if_neg hall]
    rw [List.reverse_append]
    rw [show (List.reverse [' ']) = [' '] from rfl, List.singleton_append]
    simp [List.dropWhile_cons, isWsChar]

/-! ### C10: totality and determinism of the content digest -/

/-- C10: `simpleHash` terminates on every input string (it is a total
function of the character list), returns the base-36 rendering of a
non-negative integer bounded by 2^31, maps the empty string to "0", and is
pure: equal inputs give equal outputs. -/
theorem simpleHash_total_base36_deterministic :
    (∀ s : String, simpleHash s = toBase36 (hashVal s).natAbs ∧
      (hashVal s).natAbs ≤ 2147483648) ∧
    simpleHash "" = "0" ∧
    (∀ s t : String, s = t → simpleHash s = simpleHash t) := by
  refine ⟨fun s => ⟨rfl, ?_⟩, by decide, fun s t h => by rw [h]⟩
  have hb := hashVal_bounds s
  omega

/-- Closed instance of C10 at a concrete string. -/
theorem simpleHash_total_base36_deterministic_witness :
    simpleHash "hello world" = toBase36 (hashVal "hello world").natAbs ∧
    simpleHash "hello world" = simpleHash "hello world" :=
  ⟨(simpleHash_total_base36_deterministic.1 "hello world").1,
   simpleHash_total_base36_deterministic.2.2 "hello world" "hello world" rfl⟩

/-! ### C4: identity idempotence under content drift -/

/-- C4: once an element has an assigned identity in `anchorMap`, every later
`getOrCreateAnchorId` call returns that same identifier and leaves the
generator state untouched, whatever the element's current text content
(`dom` is arbitrary, so arbitrary drift is covered). -/
theorem getOrCreateAnchorId_idempotent_under_drift
    (st : GenState) (e : Elem) (anchorId : String)
    (h : alookup st.anchorMap e = some anchorId) (dom : Dom) :
    AnchorGenerator.getOrCreateAnchorId st dom e = (anchorId, st) := by
  simp [AnchorGenerator.getOrCreateAnchorId, h]

/-- Closed instance of C4: after registering `eU` from `domA`, a call with
completely rewritten text returns the identical identifier and state. -/
theorem getOrCreateAnchorId_idempotent_under_drift_witness :
    AnchorGenerator.getOrCreateAnchorId genA domDrift eU
      = ("anchor-0-to5x38-0", genA) :=
  getOrCreateAnchorId_idempotent_under_drift genA eU "anchor-0-to5x38-0"
    (by decide) domDrift

/-! ### C9: debounce coalescing -/

theorem debounceRun_window (delay t0 : Nat) :
    ∀ (ts : List Nat) (d : Nat), t0 + delay ≤ d →
      (∀ t ∈ ts, t0 ≤ t ∧ t ≤ t0 + delay) →
      debounceRun delay ts (some d) = 1 := by
  intro ts
  induction ts with
  | nil => intro d _ _; rfl
  | cons t ts ih =>
    intro d hd hts
    have ht := hts t (by simp)
    have hnotlt : ¬ d < t := by omega
    simp only [debounceRun, if_neg hnotlt]
    exact ih (t + delay) (by omega) (fun x hx => hts x (by simp [hx]))

/-- C9: a burst of raw mutation notifications that all arrive within one
debounce window of the first (50 rapid mutations included) triggers exactly
one reconciliation pass once the window elapses, and the debounce window is
the fixed constant 150ms, inside the 50-150ms band. -/
theorem debounce_coalesces_burst (t0 : Nat) (rest : List Nat)
    (hwin : ∀ t ∈ rest, t0 ≤ t ∧ t ≤ t0 + DEBOUNCE_DELAY) :
    reconciliationPassCount (t0 :: rest) = 1 ∧
    50 ≤ DEBOUNCE_DELAY ∧ DEBOUNCE_DELAY ≤ 150 := by
  refine ⟨?_, by decide, by decide⟩
  simp only [reconciliationPassCount, debounceRun]
  exact debounceRun_window DEBOUNCE_DELAY t0 rest (t0 + DEBOUNCE_DELAY) le_rfl hwin

/-- Closed instance of C9: 50 mutations at times 0,1,...,49 (all within one
150ms window) produce exactly one reconciliation pass. -/
theorem debounce_coalesces_burst_witness :
    reconciliationPassCount (0 :: List.range' 1 49) = 1 ∧
    50 ≤ DEBOUNCE_DELAY ∧ DEBOUNCE_DELAY ≤ 150 :=
  debounce_coalesces_burst 0 (List.range' 1 49) (by decide)

/-! ### C3: per-candidate exception isolation (code bug) -/

/-- C3, evaluated at the failing input: with two candidates whose validity
check throws on the first and accepts the second, the exception escapes the
`forEach` of `detectExistingMessages` (third component `true`), the second
candidate is never tracked (the state is left exactly as it was), no change
event is emitted, and the cleanup and streaming phases never run — the
spec instead requires the throwing candidate to be skipped, the second one
to be tracked, and no exception to propagate. -/
theorem discovery_exception_aborts_pass :
    debouncedDetectE validThrow AnchorInjector.initSys domThrow 0
      = (AnchorInjector.initSys, [], true) ∧
    validThrow eU2 = .ok true ∧
    (detectExistingMessagesE validThrow domThrow 0
        MessageDetector.initState).1.messages = [] := by
  refine ⟨?_, rfl, by decide⟩
  decide

/-! ### C5: drift materiality threshold -/

/-- C5, refuted as stated: after one pass over `domA`, the user message's
text is rewritten in place to an equally long but completely different
string (`domSameLen`).  Its content fingerprint changes (`hasContentChanged`
is true — the large change is visible to the digest), yet the drift pass
collects no updated entry, because the code compares trimmed text lengths
(threshold 10 characters), not fingerprints. -/
theorem drift_fingerprint_iff_counterexample :
    AnchorGenerator.hasContentChanged sysA.gen domSameLen eU = true ∧
    trimStr (domSameLen.textContent eU) ≠ mU.lastContent ∧
    (MessageDetector.updateStreamingMessages domSameLen 9 sysA.md).2 = [] := by
  refine ⟨by decide, by decide, by decide⟩

/-- C5 as amended: the drift pass collects an updated entry for a tracked
record exactly when the trimmed text length changed by more than 10
characters; in particular a single appended trailing space (which the trim
removes) never produces an update. -/
theorem updated_entry_iff_trimmed_length_drift
    (dom : Dom) (now : Nat) (st : MDState) (e : Elem) (m : MessageData) :
    ((MessageDetector.updateStreamingMessages dom now st).2
        = st.messages.filterMap (MessageDetector.streamingUpdate dom now)) ∧
    ((MessageDetector.streamingUpdate dom now (e, m)).isSome ↔
        (((trimStr (dom.textContent e)).length : Int)
            - (m.lastContent.length : Int)).natAbs > 10) ∧
    (∀ raw : String, dom.textContent e = raw ++ " " → m.lastContent = trimStr raw →
        MessageDetector.streamingUpdate dom now (e, m) = none) := by
  refine ⟨rfl, ?_, ?_⟩
  · simp only [MessageDetector.streamingUpdate]
    by_cases hgt : (((trimStr (dom.textContent e)).length : Int)
        - (m.lastContent.length : Int)).natAbs > 10
    · simp [hgt]
    · simp [hgt]
  · intro raw h1 h2
    have hcur : trimStr (dom.textContent e) = m.lastContent := by
      rw [h1, trimStr_append_space, h2]
    simp [MessageDetector.streamingUpdate, hcur]

/-- Closed instance of C5 as amended: a 30+-character in-place growth of the
user message produces an update (and `hasContentChanged` sees it), while a
single trailing space produces none. -/
theorem updated_entry_iff_trimmed_length_drift_witness :
    (MessageDetector.streamingUpdate domDrift 9 (eU, mU)).isSome = true ∧
    AnchorGenerator.hasContentChanged sysA.gen domDrift eU = true ∧
    MessageDetector.streamingUpdate domTrail 9 (eU, mU) = none :=
  ⟨((updated_entry_iff_trimmed_length_drift domDrift 9 sysA.md eU mU).2.1).mpr
      (by decide),
   by decide,
   (updated_entry_iff_trimmed_length_drift domTrail 9 sysA.md eU mU).2.2
      "hello world" (by decide) (by decide)⟩

/-! ### Discovery pass specification -/

theorem detect_aux (dom : Dom) (now : Nat) :
    ∀ (cs : List Elem) (st0 : MDState) (b : List MessageData),
      ∃ news : List (Elem × MessageData),
        (cs.foldl (MessageDetector.detectStep dom now) (st0, b)).1.messages
            = st0.messages ++ news ∧
        (cs.foldl (MessageDetector.detectStep dom now) (st0, b)).2
            = b ++ news.map Prod.snd ∧
        (∀ p ∈ news, p.2 = MessageDetector.createMessageData dom now p.1 ∧
          p.1 ∈ cs ∧ p.1 ∉ akeys st0.messages) ∧
        (akeys news).Nodup := by
  intro cs
  induction cs with
  | nil =>
    intro st0 b
    exact ⟨[], by simp, by simp, by simp, by simp [akeys]⟩
  | cons c cs ih =>
    intro st0 b
    rw [List.foldl_cons]
    by_cases hc : dom.isValidMessage c && (alookup st0.messages c).isNone
    · have hc2 : (alookup st0.messages c).isNone = true := by
        have hcc := hc
        simp only [Bool.and_eq_true] at hcc
        exact hcc.2
      have hcnot : c ∉ akeys st0.messages :=
        (alookup_isNone_iff st0.messages c).1 (Option.isNone_iff_eq_none.1 hc2)
      have hset : aset st0.messages c (MessageDetector.createMessageData dom now c)
          = st0.messages ++ [(c, MessageDetector.createMessageData dom now c)] :=
        aset_eq_append_of_not_mem _ _ _ hcnot
      have hstep : MessageDetector.detectStep dom now (st0, b) c
          = (⟨aset st0.messages c (MessageDetector.createMessageData dom now c)⟩,
             b ++ [MessageDetector.createMessageData dom now c]) := by
        simp [MessageDetector.detectStep, hc]
      rw [hstep]
      obtain ⟨news, h1, h2, h3, h4⟩ :=
        ih ⟨aset st0.messages c (MessageDetector.createMessageData dom now c)⟩
          (b ++ [MessageDetector.createMessageData dom now c])
      refine ⟨(c, MessageDetector.createMessageData dom now c) :: news, ?_, ?_, ?_, ?_⟩
      · rw [h1]
        show aset st0.messages c (MessageDetector.createMessageData dom now c) ++ news = _
        rw [hset]
        simp
      · rw [h2]
        simp
      · intro p hp
        rcases List.mem_cons.1 hp with h | h
        · subst h
          exact ⟨rfl, by simp, hcnot⟩
        · obtain ⟨hp2, hpin, hpnot⟩ := h3 p h
          refine ⟨hp2, List.mem_cons_of_mem _ hpin, ?_⟩
          intro hmem
          apply hpnot
          show p.1 ∈ akeys (aset st0.messages c (MessageDetector.createMessageData dom now c))
          rw [hset]
          simp only [akeys, List.map_append]
          exact List.mem_append_left _ hmem
      · simp only [akeys, List.map_cons, List.nodup_cons]
        refine ⟨?_, h4⟩
        intro hcmem
        obtain ⟨p, hp, hpc⟩ := List.mem_map.1 hcmem
        obtain ⟨_, _, hpnot⟩ := h3 p hp
        apply hpnot
        show p.1 ∈ akeys (aset st0.messages c (MessageDetector.createMessageData dom now c))
        rw [hset]
        simp [akeys, hpc]
    · have hstep : MessageDetector.detectStep dom now (st0, b) c = (st0, b) := by
        simp only [MessageDetector.detectStep]
        rw [if_neg (by simpa using hc)]
      rw [hstep]
      obtain ⟨news, h1, h2, h3, h4⟩ := ih st0 b
      exact ⟨news, h1, h2,
        fun p hp => ⟨(h3 p hp).1, List.mem_cons_of_mem _ (h3 p hp).2.1, (h3 p hp).2.2⟩,
        h4⟩

/-- Specification of one discovery pass: exactly the valid untracked
candidates are appended in candidate order and returned as the batch. -/
theorem detect_spec (dom : Dom) (now : Nat) (st : MDState) :
    ∃ news : List (Elem × MessageData),
      (MessageDetector.detectExistingMessages dom now st).1.messages
          = st.messages ++ news ∧
      (MessageDetector.detectExistingMessages dom now st).2 = news.map Prod.snd ∧
      (∀ p ∈ news, p.2 = MessageDetector.createMessageData dom now p.1 ∧
        p.1 ∈ dom.candidates ∧ p.1 ∉ akeys st.messages) ∧
      (akeys news).Nodup := by
  obtain ⟨news, h1, h2, h3, h4⟩ := detect_aux dom now dom.candidates st []
  exact ⟨news, h1, by simpa using h2, h3, h4⟩

/-! ### C7: no duplicate record on rediscovery -/

/-- C7: an element already tracked by the detector stays tracked by exactly
one record after a further discovery pass, and it is not part of that pass's
added batch. -/
theorem no_duplicate_record_on_rediscovery
    (dom : Dom) (now : Nat) (st : MDState) (e : Elem)
    (hnd : (akeys st.messages).Nodup) (htracked : e ∈ akeys st.messages) :
    (akeys (MessageDetector.detectExistingMessages dom now st).1.messages).count e
        = 1 ∧
    (∀ m ∈ (MessageDetector.detectExistingMessages dom now st).2, m.elem ≠ e) := by
  obtain ⟨news, h1, h2, h3, h4⟩ := detect_spec dom now st
  have hnotnews : e ∉ akeys news := by
    intro hmem
    obtain ⟨p, hp, hpe⟩ := List.mem_map.1 hmem
    exact (h3 p hp).2.2 (hpe ▸ htracked)
  constructor
  · rw [h1]
    rw [show akeys (st.messages ++ news) = akeys st.messages ++ akeys news from by
      simp [akeys]]
    rw [List.count_append, List.count_eq_one_of_mem hnd htracked,
      List.count_eq_zero.2 hnotnews]
  · intro m hm
    rw [h2] at hm
    obtain ⟨p, hp, rfl⟩ := List.mem_map.1 hm
    rw [(h3 p hp).1]
    show p.1 ≠ e
    intro hh
    exact (h3 p hp).2.2 (hh ▸ htracked)

/-- Closed instance of C7: rediscovering `domA` with the state already
produced by a pass over `domA` keeps exactly one record for `eU` and emits
no added entry for it. -/
theorem no_duplicate_record_on_rediscovery_witness :
    (akeys (MessageDetector.detectExistingMessages domA 7 sysA.md).1.messages).count eU
        = 1 ∧
    (∀ m ∈ (MessageDetector.detectExistingMessages domA 7 sysA.md).2, m.elem ≠ eU) :=
  no_duplicate_record_on_rediscovery domA 7 sysA.md eU (by decide) (by decide)

/-! ### C2: batch emission order within a pass -/

theorem injectAnchorForMessage_md (s : Sys) (dom : Dom) (m : MessageData) :
    (AnchorInjector.injectAnchorForMessage s dom m).md = s.md := by
  by_cases h1 : (alookup s.injectedAnchors m.elem).isSome
  · simp [AnchorInjector.injectAnchorForMessage, h1]
  · by_cases h2 : m.elem.role ≠ Role.user
    · simp [AnchorInjector.injectAnchorForMessage, h1, h2]
    · simp [AnchorInjector.injectAnchorForMessage, h1, h2]

theorem removeAnchorForMessage_md (s : Sys) (m : MessageData) :
    (AnchorInjector.removeAnchorForMessage s m).md = s.md := by
  unfold AnchorInjector.removeAnchorForMessage
  split <;> rfl

theorem streamingCacheRefresh_md (s : Sys) (dom : Dom) (m : MessageData) :
    (AnchorInjector.streamingCacheRefresh s dom m).md = s.md := by
  unfold AnchorInjector.streamingCacheRefresh
  split <;> rfl

theorem foldl_md_invariant (f : Sys → MessageData → Sys)
    (hf : ∀ s m, (f s m).md = s.md) :
    ∀ (ms : List MessageData) (s : Sys), (ms.foldl f s).md = s.md := by
  intro ms
  induction ms with
  | nil => intro s; rfl
  | cons m ms ih => intro s; rw [List.foldl_cons, ih, hf]

theorem handleMessagesChanged_md (s : Sys) (dom : Dom) (ev : ChangeEvent) :
    (AnchorInjector.handleMessagesChanged s dom ev).md = s.md := by
  unfold AnchorInjector.handleMessagesChanged
  cases ev.btype
  · exact foldl_md_invariant _ (fun s m => injectAnchorForMessage_md s dom m) _ s
  · exact foldl_md_invariant _ (fun s m => streamingCacheRefresh_md s dom m) _ s
  · exact foldl_md_invariant _ (fun s m => removeAnchorForMessage_md s m) _ s

theorem addedPhase_shape (s : Sys) (dom : Dom) (now : Nat) :
    (AnchorInjector.addedPhase s dom now).1.md
        = (MessageDetector.detectExistingMessages dom now s.md).1 ∧
    ((AnchorInjector.addedPhase s dom now).2 = [] ∨
      (AnchorInjector.addedPhase s dom now).2
        = [⟨.added, (MessageDetector.detectExistingMessages dom now s.md).2⟩]) := by
  by_cases hemp : (MessageDetector.detectExistingMessages dom now s.md).2.isEmpty
  · exact ⟨by simp [AnchorInjector.addedPhase, hemp],
      Or.inl (by simp [AnchorInjector.addedPhase, hemp])⟩
  · exact ⟨by simp [AnchorInjector.addedPhase, hemp, handleMessagesChanged_md],
      Or.inr (by simp [AnchorInjector.addedPhase, hemp])⟩

theorem removedPhase_shape (s : Sys) (dom : Dom) :
    (AnchorInjector.removedPhase s dom).1.md
        = (MessageDetector.cleanupRemovedMessages dom s.md).1 ∧
    ((AnchorInjector.removedPhase s dom).2 = [] ∨
      (AnchorInjector.removedPhase s dom).2
        = [⟨.removed, (MessageDetector.cleanupRemovedMessages dom s.md).2⟩]) := by
  by_cases hemp : (MessageDetector.cleanupRemovedMessages dom s.md).2.isEmpty
  · exact ⟨by simp [AnchorInjector.removedPhase, hemp],
      Or.inl (by simp [AnchorInjector.removedPhase, hemp])⟩
  · exact ⟨by simp [AnchorInjector.removedPhase, hemp, handleMessagesChanged_md],
      Or.inr (by simp [AnchorInjector.removedPhase, hemp])⟩

theorem updatedPhase_shape (s : Sys) (dom : Dom) (now : Nat) :
    (AnchorInjector.updatedPhase s dom now).1.md
        = (MessageDetector.updateStreamingMessages dom now s.md).1 ∧
    ((AnchorInjector.updatedPhase s dom now).2 = [] ∨
      (AnchorInjector.updatedPhase s dom now).2
        = [⟨.updated, (MessageDetector.updateStreamingMessages dom now s.md).2⟩]) := by
  by_cases hemp : (MessageDetector.updateStreamingMessages dom now s.md).2.isEmpty
  · exact ⟨by simp [AnchorInjector.updatedPhase, hemp],
      Or.inl (by simp [AnchorInjector.updatedPhase, hemp])⟩
  · exact ⟨by simp [AnchorInjector.updatedPhase, hemp, handleMessagesChanged_md],
      Or.inr (by simp [AnchorInjector.updatedPhase, hemp])⟩

theorem streamingUpdate_elem (dom : Dom) (now : Nat) (q : Elem × MessageData)
    (mu : MessageData) (h : MessageDetector.streamingUpdate dom now q = some mu) :
    mu.elem = q.2.elem := by
  simp only [MessageDetector.streamingUpdate] at h
  split at h
  · cases h
    rfl
  · cases h

theorem streamingUpdate_fresh (dom : Dom) (now : Nat) (x : Elem) :
    MessageDetector.streamingUpdate dom now
      (x, MessageDetector.createMessageData dom now x) = none := by
  simp [MessageDetector.streamingUpdate, MessageDetector.createMessageData]

/-- C2, refuted as stated: in the second pass over `domB` (the user message
detached, the assistant message streamed 35 further characters), both the
removed and updated batches are non-empty, and the removed batch is emitted
before the updated one — the actual emission order is added, removed,
updated, not added, updated, removed. -/
theorem pass_event_order_counterexample :
    ((AnchorInjector.reconciliationPass sysA domB 9).2.map ChangeEvent.btype)
      = [.removed, .updated] := by
  decide

/-- C2 as amended: within one reconciliation pass the batches are emitted in
the fixed order added, then removed, then updated (each only when
non-empty); and an element never occurs in both the added and the updated
batch of the same pass, so a listener still never receives an updated
notification for an identifier before its added notification. -/
theorem pass_event_order (sys : Sys) (dom : Dom) (now : Nat)
    (hwf : ∀ p ∈ sys.md.messages, p.2.elem = p.1) :
    ((AnchorInjector.reconciliationPass sys dom now).2.map ChangeEvent.btype).Sublist
        [BatchType.added, BatchType.removed, BatchType.updated] ∧
    (∀ evA ∈ (AnchorInjector.reconciliationPass sys dom now).2,
      ∀ evU ∈ (AnchorInjector.reconciliationPass sys dom now).2,
        evA.btype = BatchType.added → evU.btype = BatchType.updated →
        ∀ ma ∈ evA.messages, ∀ mu ∈ evU.messages, ma.elem ≠ mu.elem) := by
  obtain ⟨hamd, haev⟩ := addedPhase_shape sys dom now
  obtain ⟨hrmd, hrev⟩ := removedPhase_shape (AnchorInjector.addedPhase sys dom now).1 dom
  obtain ⟨humd, huev⟩ := updatedPhase_shape
    (AnchorInjector.removedPhase (AnchorInjector.addedPhase sys dom now).1 dom).1 dom now
  have hevs : (AnchorInjector.reconciliationPass sys dom now).2
      = (AnchorInjector.addedPhase sys dom now).2
        ++ (AnchorInjector.removedPhase (AnchorInjector.addedPhase sys dom now).1 dom).2
        ++ (AnchorInjector.updatedPhase
            (AnchorInjector.removedPhase (AnchorInjector.addedPhase sys dom now).1 dom).1
            dom now).2 := rfl
  constructor
  · rw [hevs]
    rcases haev with ha | ha <;> rcases hrev with hr | hr <;> rcases huev with hu | hu <;>
      simp [ha, hr, hu]
  · intro evA hevA evU hevU htA htU ma hma mu hmu
    rw [hevs] at hevA hevU
    obtain ⟨news, hd1, hd2, hd3, hd4⟩ := detect_spec dom now sys.md
    have hevA2 : evA
        = (⟨.added, (MessageDetector.detectExistingMessages dom now sys.md).2⟩
            : ChangeEvent) := by
      rcases List.mem_append.1 hevA with h | h
      · rcases List.mem_append.1 h with h2 | h2
        · rcases haev with ha | ha
          · rw [ha] at h2; cases h2
          · rw [ha] at h2; simpa using h2
        · rcases hrev with hr | hr
          · rw [hr] at h2; cases h2
          · rw [hr] at h2
            simp only [List.mem_singleton] at h2
            rw [h2] at htA
            cases htA
      · rcases huev with hu | hu
        · rw [hu] at h; cases h
        · rw [hu] at h
          simp only [List.mem_singleton] at h
          rw [h] at htA
          cases htA
    have hevU2 : evU
        = (⟨.updated, (MessageDetector.updateStreamingMessages dom now
            (AnchorInjector.removedPhase
              (AnchorInjector.addedPhase sys dom now).1 dom).1.md).2⟩
            : ChangeEvent) := by
      rcases List.mem_append.1 hevU with h | h
      · rcases List.mem_append.1 h with h2 | h2
        · rcases haev with ha | ha
          · rw [ha] at h2; cases h2
          · rw [ha] at h2
            simp only [List.mem_singleton] at h2
            rw [h2] at htU
            cases htU
        · rcases hrev with hr | hr
          · rw [hr] at h2; cases h2
          · rw [hr] at h2
            simp only [List.mem_singleton] at h2
            rw [h2] at htU
            cases htU
      · rcases huev with hu | hu
        · rw [hu] at h; cases h
        · rw [hu] at h; simpa using h
    rw [hevA2] at hma
    rw [hevU2] at hmu
    simp only at hma hmu
    rw [hd2] at hma
    obtain ⟨p, hp, hpma⟩ := List.mem_map.1 hma
    have hmae : ma.elem = p.1 := by
      rw [← hpma, (hd3 p hp).1]
      rfl
    have hmunot : mu.elem ∈ akeys sys.md.messages := by
      rw [hrmd, hamd] at hmu
      have hmu2 : mu ∈ ((MessageDetector.detectExistingMessages dom now sys.md).1.messages.filter
          (fun q => dom.contains q.1)).filterMap (MessageDetector.streamingUpdate dom now) := hmu
      obtain ⟨q, hq, hsq⟩ := List.mem_filterMap.1 hmu2
      have hqmem : q ∈ (MessageDetector.detectExistingMessages dom now sys.md).1.messages :=
        List.mem_of_mem_filter hq
      rw [hd1] at hqmem
      rcases List.mem_append.1 hqmem with hqold | hqnew
      · have : mu.elem = q.2.elem := streamingUpdate_elem dom now q mu hsq
        rw [this, hwf q hqold]
        exact List.mem_map.2 ⟨q, hqold, rfl⟩
      · exfalso
        have hqeq : q = (q.1, MessageDetector.createMessageData dom now q.1) := by
          have h2 := (hd3 q hqnew).1
          exact Prod.ext rfl h2
        rw [hqeq, streamingUpdate_fresh] at hsq
        cases hsq
    intro heq
    rw [hmae] at heq
    rw [← heq] at hmunot
    exact (hd3 p hp).2.2 hmunot

/-! ### Generator invariant -/

theorem externalId_eq_none_of_fallback (e : Elem) (h : fallbackElem e = true) :
    AnchorGenerator.externalId e = none := by
  simp only [fallbackElem, Bool.and_eq_true, Option.isNone_iff_eq_none] at h
  rw [AnchorGenerator.externalId, h.1, h.2]
  rfl

/-- Looking up an already-registered element returns the stored id and does
not change the state (helper form, shared by several developments). -/
theorem getOrCreate_of_registered (st : GenState) (e : Elem) (anchorId : String)
    (h : alookup st.anchorMap e = some anchorId) (dom : Dom) :
    AnchorGenerator.getOrCreateAnchorId st dom e = (anchorId, st) := by
  simp [AnchorGenerator.getOrCreateAnchorId, h]

theorem GenInv_init : GenInv AnchorGenerator.initState :=
  ⟨by simp [AnchorGenerator.initState], by simp [AnchorGenerator.initState],
   rfl, by simp [AnchorGenerator.initState, akeys]⟩

theorem getOrCreate_fresh_spec (st : GenState) (dom : Dom) (e : Elem)
    (hfb : fallbackElem e = true) (habs : alookup st.anchorMap e = none)
    (hinv : GenInv st) :
    GenInv (AnchorGenerator.getOrCreateAnchorId st dom e).2 ∧
    (AnchorGenerator.getOrCreateAnchorId st dom e).2.anchorMap
        = st.anchorMap ++ [(e, (AnchorGenerator.getOrCreateAnchorId st dom e).1)] ∧
    parseSeq (AnchorGenerator.getOrCreateAnchorId st dom e).1 = st.sequenceCounter ∧
    (AnchorGenerator.getOrCreateAnchorId st dom e).2.sequenceCounter
        = st.sequenceCounter + 1 := by
  obtain ⟨hlt, hpw, hid, hnd⟩ := hinv
  have hext := externalId_eq_none_of_fallback e hfb
  have hkeynot : e ∉ akeys st.anchorMap := (alookup_isNone_iff _ _).1 habs
  have hseq : parseSeq ("anchor-" ++ natToDec (dom.siblingPos e) ++ "-"
      ++ AnchorGenerator.hashContent (dom.textContent e) ++ "-"
      ++ natToDec st.sequenceCounter) = st.sequenceCounter :=
    parseSeq_append_dash_dec
      ("anchor-" ++ natToDec (dom.siblingPos e) ++ "-"
        ++ AnchorGenerator.hashContent (dom.textContent e)) st.sequenceCounter
  have hmain : AnchorGenerator.getOrCreateAnchorId st dom e
      = ("anchor-" ++ natToDec (dom.siblingPos e) ++ "-"
          ++ AnchorGenerator.hashContent (dom.textContent e) ++ "-"
          ++ natToDec st.sequenceCounter,
         { anchorMap := aset st.anchorMap e
             ("anchor-" ++ natToDec (dom.siblingPos e) ++ "-"
               ++ AnchorGenerator.hashContent (dom.textContent e) ++ "-"
               ++ natToDec st.sequenceCounter),
           idMap := aset st.idMap
             ("anchor-" ++ natToDec (dom.siblingPos e) ++ "-"
               ++ AnchorGenerator.hashContent (dom.textContent e) ++ "-"
               ++ natToDec st.sequenceCounter) e,
           contentCache := aset st.contentCache e
             (AnchorGenerator.hashContent (dom.textContent e)),
           sequenceCounter := st.sequenceCounter + 1 }) := by
    simp [AnchorGenerator.getOrCreateAnchorId, habs,
      AnchorGenerator.generateAnchorId, hext]
  have hvalnew : ∀ p ∈ st.anchorMap,
      p.2 ≠ "anchor-" ++ natToDec (dom.siblingPos e) ++ "-"
        ++ AnchorGenerator.hashContent (dom.textContent e) ++ "-"
        ++ natToDec st.sequenceCounter := by
    intro p hp heq
    have h1 := hlt p hp
    rw [heq, hseq] at h1
    omega
  have hsetmap : aset st.anchorMap e
      ("anchor-" ++ natToDec (dom.siblingPos e) ++ "-"
        ++ AnchorGenerator.hashContent (dom.textContent e) ++ "-"
        ++ natToDec st.sequenceCounter)
      = st.anchorMap ++ [(e, "anchor-" ++ natToDec (dom.siblingPos e) ++ "-"
        ++ AnchorGenerator.hashContent (dom.textContent e) ++ "-"
        ++ natToDec st.sequenceCounter)] :=
    aset_eq_append_of_not_mem _ _ _ hkeynot
  have hidnot : ("anchor-" ++ natToDec (dom.siblingPos e) ++ "-"
      ++ AnchorGenerator.hashContent (dom.textContent e) ++ "-"
      ++ natToDec st.sequenceCounter) ∉ akeys st.idMap := by
    rw [hid, map_snd_swap_keys]
    intro hmem
    obtain ⟨p, hp, hpe⟩ := List.mem_map.1 hmem
    exact hvalnew p hp hpe
  have hsetid : aset st.idMap
      ("anchor-" ++ natToDec (dom.siblingPos e) ++ "-"
        ++ AnchorGenerator.hashContent (dom.textContent e) ++ "-"
        ++ natToDec st.sequenceCounter) e
      = st.idMap ++ [("anchor-" ++ natToDec (dom.siblingPos e) ++ "-"
          ++ AnchorGenerator.hashContent (dom.textContent e) ++ "-"
          ++ natToDec st.sequenceCounter, e)] :=
    aset_eq_append_of_not_mem _ _ _ hidnot
  rw [hmain]
  dsimp only
  refine ⟨⟨?_, ?_, ?_, ?_⟩, hsetmap, hseq, rfl⟩
  · rw [hsetmap]
    intro p hp
    have hgoal : parseSeq p.2 < st.sequenceCounter + 1 := by
      rcases List.mem_append.1 hp with h | h
      · have := hlt p h
        omega
      · simp only [List.mem_singleton] at h
        rw [h]
        dsimp only
        rw [hseq]
        omega
    exact hgoal
  · rw [hsetmap, List.pairwise_append]
    refine ⟨hpw, by simp, ?_⟩
    intro a ha b hb
    simp only [List.mem_singleton] at hb
    rw [hb]
    dsimp only
    rw [hseq]
    have := hlt a ha
    omega
  · rw [hsetid, hid, hsetmap, List.map_append]
    rfl
  · rw [hsetmap]
    simp only [akeys, List.map_append, List.map_cons, List.map_nil]
    rw [List.nodup_append]
    refine ⟨hnd, by simp, ?_⟩
    intro a ha hb
    simp only [List.mem_singleton] at hb
    exact hkeynot (hb ▸ ha)

theorem removeAnchor_spec (st : GenState) (e : Elem) (hinv : GenInv st) :
    GenInv (AnchorGenerator.removeAnchor st e) ∧
    (AnchorGenerator.removeAnchor st e).anchorMap
        = st.anchorMap.filter (fun p => p.1 ≠ e) ∧
    (AnchorGenerator.removeAnchor st e).sequenceCounter = st.sequenceCounter := by
  obtain ⟨hlt, hpw, hid, hnd⟩ := hinv
  have hfilter : aerase st.anchorMap e = st.anchorMap.filter (fun p => p.1 ≠ e) :=
    aerase_eq_filter_of_nodup _ _ hnd
  cases hlook : alookup st.anchorMap e with
  | none =>
    have hmain : AnchorGenerator.removeAnchor st e
        = { st with anchorMap := aerase st.anchorMap e,
                    contentCache := aerase st.contentCache e } := by
      simp [AnchorGenerator.removeAnchor, hlook]
    rw [hmain]
    have hnot : e ∉ akeys st.anchorMap := (alookup_isNone_iff _ _).1 hlook
    have hself : aerase st.anchorMap e = st.anchorMap := aerase_of_not_mem _ _ hnot
    refine ⟨⟨?_, ?_, ?_, ?_⟩, ?_, rfl⟩
    · show ∀ p ∈ aerase st.anchorMap e, parseSeq p.2 < st.sequenceCounter
      rw [hself]
      exact hlt
    · show (aerase st.anchorMap e).Pairwise _
      rw [hself]
      exact hpw
    · show st.idMap = (aerase st.anchorMap e).map _
      rw [hself]
      exact hid
    · show (akeys (aerase st.anchorMap e)).Nodup
      rw [hself]
      exact hnd
    · exact hfilter
  | some anchorId =>
    have hvalpw : st.anchorMap.Pairwise (fun p q => p.2 ≠ q.2) :=
      hpw.imp (fun h heq => h (by rw [heq]))
    have hmain : AnchorGenerator.removeAnchor st e
        = { anchorMap := aerase st.anchorMap e,
            idMap := aerase st.idMap anchorId,
            contentCache := aerase st.contentCache e,
            sequenceCounter := st.sequenceCounter } := by
      simp [AnchorGenerator.removeAnchor, hlook]
    rw [hmain]
    refine ⟨⟨?_, ?_, ?_, ?_⟩, ?_, rfl⟩
    · show ∀ p ∈ aerase st.anchorMap e, parseSeq p.2 < st.sequenceCounter
      rw [hfilter]
      intro p hp
      exact hlt p (List.mem_of_mem_filter hp)
    · show (aerase st.anchorMap e).Pairwise _
      rw [hfilter]
      exact List.Pairwise.sublist (List.filter_sublist _) hpw
    · show aerase st.idMap anchorId = (aerase st.anchorMap e).map _
      rw [hid]
      exact aerase_map_swap st.anchorMap e anchorId hvalpw hlook
    · show (akeys (aerase st.anchorMap e)).Nodup
      rw [akeys_aerase]
      exact hnd.erase _
    · exact hfilter

theorem updateContentCache_inv (st : GenState) (dom : Dom) (e : Elem)
    (h : GenInv st) : GenInv (AnchorGenerator.updateContentCache st dom e) := h

theorem genFold_inv (ops : List GenOp) :
    ∀ (st : GenState), GenInv st → (∀ op ∈ ops, fallbackOnly op = true) →
      GenInv (ops.foldl applyGenOp st) := by
  induction ops with
  | nil => intro st h _; exact h
  | cons op ops ih =>
    intro st h hops
    rw [List.foldl_cons]
    apply ih
    · cases op with
      | create dom e =>
        have hfb : fallbackElem e = true := by
          simpa [fallbackOnly] using hops (GenOp.create dom e) (by simp)
        cases hlook : alookup st.anchorMap e with
        | some anchorId =>
          have heq := getOrCreate_of_registered st e anchorId hlook dom
          show GenInv (AnchorGenerator.getOrCreateAnchorId st dom e).2
          rw [heq]
          exact h
        | none => exact (getOrCreate_fresh_spec st dom e hfb hlook h).1
      | remove e => exact (removeAnchor_spec st e h).1
      | refreshCache dom e => exact updateContentCache_inv st dom e h
      | clearOp => exact GenInv_init
    · exact fun op2 hop2 => hops op2 (by simp [hop2])

theorem runGen_inv (ops : List GenOp)
    (hops : ∀ op ∈ ops, fallbackOnly op = true) : GenInv (runGen ops) :=
  genFold_inv ops AnchorGenerator.initState GenInv_init hops

/-! ### C6: identifier uniqueness and no reuse -/

/-- C6, refuted as stated: two distinct elements carrying the same platform
message id (`data-message-id = "dup"`) are both registered and get the
identical identifier `anchor-dup`, and the reverse map now resolves
`anchor-dup` to the second element while the first is still registered —
the identifier was reassigned while registered. -/
theorem identifier_reuse_counterexample :
    eD1 ≠ eD2 ∧
    alookup genD.anchorMap eD1 = some "anchor-dup" ∧
    alookup genD.anchorMap eD2 = some "anchor-dup" ∧
    AnchorGenerator.getElementByAnchorId genD "anchor-dup" = some eD2 := by
  exact ⟨by decide, by decide, by decide, by decide⟩

/-- C6 as amended: along any run of generator operations whose created
elements all take the fallback identity path (no external id), any two
distinct simultaneously-registered elements have distinct identifiers —
the monotonically increasing sequence component guarantees it even when
digests and positions coincide — and every registered identifier resolves
back to exactly its own element, so an identifier is never reassigned while
registered. -/
theorem fallback_identifier_uniqueness (ops : List GenOp)
    (hops : ∀ op ∈ ops, fallbackOnly op = true) :
    (∀ p ∈ (runGen ops).anchorMap, ∀ q ∈ (runGen ops).anchorMap,
        p.1 ≠ q.1 → p.2 ≠ q.2) ∧
    (∀ p ∈ (runGen ops).anchorMap,
        AnchorGenerator.getElementByAnchorId (runGen ops) p.2 = some p.1) := by
  obtain ⟨hlt, hpw, hid, hnd⟩ := runGen_inv ops hops
  have hsymm : Symmetric (fun p q : Elem × String => parseSeq p.2 ≠ parseSeq q.2) :=
    fun _ _ hxy h2 => hxy h2.symm
  constructor
  · intro p hp q hq hne heq
    have hpairne : p ≠ q := fun h => hne (by rw [h])
    exact List.Pairwise.forall hsymm hpw hp hq hpairne (by rw [heq])
  · intro p hp
    have hmem : (p.2, p.1) ∈ (runGen ops).idMap := by
      rw [hid]
      exact List.mem_map.2 ⟨p, hp, rfl⟩
    have hndid : (akeys (runGen ops).idMap).Nodup := by
      rw [hid, map_snd_swap_keys]
      show ((runGen ops).anchorMap.map Prod.snd).Pairwise _
      rw [List.pairwise_map]
      exact hpw.imp (fun h heq => h (by rw [heq]))
    exact alookup_of_mem_nodup _ _ _ hndid hmem

/-- Closed instance of C6 as amended: two fallback-path user elements
registered in one run carry distinct identifiers that each resolve to their
own element. -/
theorem fallback_identifier_uniqueness_witness :
    (∀ p ∈ (runGen [GenOp.create domA eU, GenOp.create domA eA]).anchorMap,
      ∀ q ∈ (runGen [GenOp.create domA eU, GenOp.create domA eA]).anchorMap,
        p.1 ≠ q.1 → p.2 ≠ q.2) ∧
    (∀ p ∈ (runGen [GenOp.create domA eU, GenOp.create domA eA]).anchorMap,
        AnchorGenerator.getElementByAnchorId
          (runGen [GenOp.create domA eU, GenOp.create domA eA]) p.2 = some p.1) :=
  fallback_identifier_uniqueness [GenOp.create domA eU, GenOp.create domA eA]
    (by decide)

/-- Closed instance of C2 as amended, at the state after a pass over `domA`
and the mutated page `domB`. -/
theorem pass_event_order_witness :
    ((AnchorInjector.reconciliationPass sysA domB 9).2.map ChangeEvent.btype).Sublist
        [BatchType.added, BatchType.removed, BatchType.updated] :=
  (pass_event_order sysA domB 9 (by decide)).1

/-! ### C8: reset clears fully -/

theorem ui_remove_fold_clears :
    ∀ (l : List (Elem × String)) (ui : UIState),
      ui.messageLines = l.map Prod.snd →
      akeys ui.messageElements = l.map Prod.snd →
      akeys ui.messageTexts = l.map Prod.snd →
      l.foldl (fun u p => AnchorUI.removeMessageLine u p.2) ui
        = AnchorUI.initState := by
  intro l
  induction l with
  | nil =>
    intro ui h1 h2 h3
    obtain ⟨lines, elems, texts⟩ := ui
    simp only [List.map_nil] at h1 h2 h3
    have he : elems = [] := List.map_eq_nil_iff.1 h2
    have ht : texts = [] := List.map_eq_nil_iff.1 h3
    rw [List.foldl_nil]
    rw [show lines = [] from h1, he, ht]
    rfl
  | cons p t ih =>
    intro ui h1 h2 h3
    rw [List.foldl_cons]
    apply ih
    · show ui.messageLines.erase p.2 = t.map Prod.snd
      rw [h1, List.map_cons, List.erase_cons_head]
    · show akeys (aerase ui.messageElements p.2) = t.map Prod.snd
      rw [akeys_aerase, h2, List.map_cons, List.erase_cons_head]
    · show akeys (aerase ui.messageTexts p.2) = t.map Prod.snd
      rw [akeys_aerase, h3, List.map_cons, List.erase_cons_head]

/-- C8 (amended): the reset path clears fully only when nothing matching the
message selector is still attached at clear time (the selector matches no
candidates); then `clearAllAnchors` resets the whole system to its initial
state — so no identifier issued before the reset resolves
(`getElementByAnchorId` is `none` everywhere) and any subsequent discovery
pass is identical to one run from a fresh session.  When old content is
still attached, the synchronous re-detection inside `clearMessages`
re-tracks it before the generator is cleared, and the reset is incomplete —
see the counterexample below.  The hypotheses are the UI/injector
congruence that every reachable state satisfies. -/
theorem reset_clears_fully (sys : Sys) (dom : Dom) (now : Nat)
    (hui : sys.ui.messageLines = sys.injectedAnchors.map Prod.snd)
    (hue : akeys sys.ui.messageElements = sys.injectedAnchors.map Prod.snd)
    (hut : akeys sys.ui.messageTexts = sys.injectedAnchors.map Prod.snd)
    (hclear : dom.candidates = []) :
    (∀ anchorId, AnchorGenerator.getElementByAnchorId
        (AnchorInjector.clearAllAnchors sys dom now).gen anchorId = none) ∧
    AnchorInjector.clearAllAnchors sys dom now = AnchorInjector.initSys ∧
    (∀ (dom2 : Dom) (now2 : Nat),
      AnchorInjector.reconciliationPass
          (AnchorInjector.clearAllAnchors sys dom now) dom2 now2
        = AnchorInjector.reconciliationPass AnchorInjector.initSys dom2 now2) := by
  have hui1 : sys.injectedAnchors.foldl
      (fun u p => AnchorUI.removeMessageLine u p.2) sys.ui = AnchorUI.initState :=
    ui_remove_fold_clears sys.injectedAnchors sys.ui hui hue hut
  have hmain : AnchorInjector.clearAllAnchors sys dom now = AnchorInjector.initSys := by
    cases hhc : dom.hasContainer with
    | false =>
      simp only [AnchorInjector.clearAllAnchors, hui1, hhc, Bool.false_eq_true,
        if_false]
      rfl
    | true =>
      simp only [AnchorInjector.clearAllAnchors, hui1, hhc, if_true]
      simp only [AnchorInjector.addedPhase, AnchorInjector.removedPhase,
        MessageDetector.detectExistingMessages, hclear,
        MessageDetector.cleanupRemovedMessages]
      rfl
  refine ⟨?_, hmain, ?_⟩
  · intro anchorId
    rw [hmain]
    rfl
  · intro dom2 now2
    rw [hmain]

/-- Closed instance of C8: clearing the post-`domA` state during a chat
switch (container gone) resets everything; no old identifier resolves and a
pass over a fresh container equals a fresh session's pass. -/
theorem reset_clears_fully_witness :
    (∀ anchorId, AnchorGenerator.getElementByAnchorId
        (AnchorInjector.clearAllAnchors sysA domGone 9).gen anchorId = none) ∧
    AnchorInjector.clearAllAnchors sysA domGone 9 = AnchorInjector.initSys ∧
    (∀ (dom2 : Dom) (now2 : Nat),
      AnchorInjector.reconciliationPass
          (AnchorInjector.clearAllAnchors sysA domGone 9) dom2 now2
        = AnchorInjector.reconciliationPass AnchorInjector.initSys dom2 now2) :=
  reset_clears_fully sysA domGone 9 (by decide) (by decide) (by decide) (by decide)

/-- C8 (counterexample): running the reset path while the old conversation
content is still attached — the moment main.js fires `clearAllAnchors` on a
URL change, before the old messages detach — does NOT clear fully.
`clearMessages` stops and reconnects the observer, and `reconnectObserver`
synchronously re-runs detection: the detector re-tracks the still-present
elements and the injector re-injects an anchor using the not-yet-cleared
generator's old identifier, and only afterwards is the generator cleared.
The post-reset state is not the initial state: the tracker holds two
records, the UI still shows the old line `anchor-0-to5x38-0`, that
identifier no longer resolves in the generator, and the next discovery pass
is not independent of the pre-reset state — it emits no batch at all, while
a fresh session's pass over the same container emits an added batch. -/
theorem reset_clears_fully_counterexample :
    AnchorInjector.clearAllAnchors sysA domA 9 ≠ AnchorInjector.initSys ∧
    (AnchorInjector.clearAllAnchors sysA domA 9).md.messages.length = 2 ∧
    (AnchorInjector.clearAllAnchors sysA domA 9).ui.messageLines
      = ["anchor-0-to5x38-0"] ∧
    AnchorGenerator.getElementByAnchorId
        (AnchorInjector.clearAllAnchors sysA domA 9).gen "anchor-0-to5x38-0"
      = none ∧
    ((AnchorInjector.reconciliationPass
        (AnchorInjector.clearAllAnchors sysA domA 9) domA 10).2.map
      ChangeEvent.btype) = [] ∧
    ((AnchorInjector.reconciliationPass AnchorInjector.initSys domA 10).2.map
      ChangeEvent.btype) = [BatchType.added] := by
  decide

/-! ### System invariant: added phase -/

theorem inject_skip_nonuser (t : Sys) (dom : Dom) (m : MessageData)
    (hrole : m.elem.role ≠ Role.user) :
    AnchorInjector.injectAnchorForMessage t dom m = t := by
  by_cases h1 : (alookup t.injectedAnchors m.elem).isSome
  · simp [AnchorInjector.injectAnchorForMessage, h1]
  · simp [AnchorInjector.injectAnchorForMessage, h1, hrole]

theorem inject_fresh_user (t : Sys) (dom : Dom) (m : MessageData)
    (hrole : m.elem.role = Role.user)
    (habs : alookup t.injectedAnchors m.elem = none) :
    AnchorInjector.injectAnchorForMessage t dom m
      = { t with
          gen := (AnchorGenerator.getOrCreateAnchorId t.gen dom m.elem).2
          ui := AnchorUI.addMessageLine t.ui dom
            (AnchorGenerator.getOrCreateAnchorId t.gen dom m.elem).1 m.elem
          injectedAnchors := aset t.injectedAnchors m.elem
            (AnchorGenerator.getOrCreateAnchorId t.gen dom m.elem).1 } := by
  simp [AnchorInjector.injectAnchorForMessage, habs, hrole]

theorem addMessageLine_fresh (ui : UIState) (dom : Dom) (anchorId : String)
    (e : Elem) (h : anchorId ∉ ui.messageLines) :
    AnchorUI.addMessageLine ui dom anchorId e
      = { messageLines := ui.messageLines ++ [anchorId]
          messageElements := aset ui.messageElements anchorId e
          messageTexts := aset ui.messageTexts anchorId
            (AnchorUI.extractMessageText dom e) } := by
  simp [AnchorUI.addMessageLine, h]

theorem inject_fold_spec (dom : Dom) :
    ∀ (ms : List MessageData) (t : Sys),
      GenInv t.gen →
      t.injectedAnchors = t.gen.anchorMap →
      t.ui.messageLines = t.injectedAnchors.map Prod.snd →
      (∀ m ∈ ms, fallbackElem m.elem = true) →
      (∀ m ∈ ms, m.elem ∉ akeys t.injectedAnchors) →
      (ms.map MessageData.elem).Nodup →
      GenInv (ms.foldl (fun s m => AnchorInjector.injectAnchorForMessage s dom m) t).gen ∧
      (ms.foldl (fun s m => AnchorInjector.injectAnchorForMessage s dom m) t).injectedAnchors
        = (ms.foldl (fun s m => AnchorInjector.injectAnchorForMessage s dom m) t).gen.anchorMap ∧
      (ms.foldl (fun s m => AnchorInjector.injectAnchorForMessage s dom m) t).ui.messageLines
        = (ms.foldl (fun s m => AnchorInjector.injectAnchorForMessage s dom m) t).injectedAnchors.map Prod.snd ∧
      akeys (ms.foldl (fun s m => AnchorInjector.injectAnchorForMessage s dom m) t).injectedAnchors
        = akeys t.injectedAnchors
            ++ (ms.map MessageData.elem).filter (fun e => e.role = Role.user) ∧
      (ms.foldl (fun s m => AnchorInjector.injectAnchorForMessage s dom m) t).md = t.md := by
  intro ms
  induction ms with
  | nil =>
    intro t h1 h2 h3 _ _ _
    exact ⟨h1, h2, h3, by simp, rfl⟩
  | cons m ms ih =>
    intro t h1 h2 h3 hfb hfresh hnd
    rw [List.foldl_cons]
    have hndc : (∀ x ∈ ms, ¬ x.elem = m.elem) ∧ (ms.map MessageData.elem).Nodup := by
      simpa using hnd
    have hmabs : alookup t.injectedAnchors m.elem = none :=
      alookup_eq_none_of_not_mem _ _ (hfresh m (by simp))
    by_cases hrole : m.elem.role = Role.user
    · have hgabs : alookup t.gen.anchorMap m.elem = none := by
        rw [← h2]
        exact hmabs
      obtain ⟨hgi', hmapapp, hpseq, hseq'⟩ :=
        getOrCreate_fresh_spec t.gen dom m.elem (hfb m (by simp)) hgabs h1
      have hinjapp : aset t.injectedAnchors m.elem
          (AnchorGenerator.getOrCreateAnchorId t.gen dom m.elem).1
          = t.injectedAnchors
            ++ [(m.elem, (AnchorGenerator.getOrCreateAnchorId t.gen dom m.elem).1)] :=
        aset_eq_append_of_not_mem _ _ _ (hfresh m (by simp))
      have hlinenot : (AnchorGenerator.getOrCreateAnchorId t.gen dom m.elem).1
          ∉ t.ui.messageLines := by
        rw [h3, h2]
        intro hmem
        obtain ⟨q, hq, hqe⟩ := List.mem_map.1 hmem
        have hq2 := h1.1 q hq
        rw [hqe, hpseq] at hq2
        omega
      rw [inject_fresh_user t dom m hrole hmabs]
      rw [addMessageLine_fresh _ _ _ _ hlinenot]
      have hres := ih
        { t with
          gen := (AnchorGenerator.getOrCreateAnchorId t.gen dom m.elem).2
          ui := { messageLines := t.ui.messageLines
                    ++ [(AnchorGenerator.getOrCreateAnchorId t.gen dom m.elem).1]
                  messageElements := aset t.ui.messageElements
                    (AnchorGenerator.getOrCreateAnchorId t.gen dom m.elem).1 m.elem
                  messageTexts := aset t.ui.messageTexts
                    (AnchorGenerator.getOrCreateAnchorId t.gen dom m.elem).1
                    (AnchorUI.extractMessageText dom m.elem) }
          injectedAnchors := aset t.injectedAnchors m.elem
            (AnchorGenerator.getOrCreateAnchorId t.gen dom m.elem).1 }
        hgi'
        (by
          show aset t.injectedAnchors m.elem _ = _
          rw [hinjapp, h2, ← hmapapp])
        (by
          show t.ui.messageLines ++ _ = (aset t.injectedAnchors m.elem _).map Prod.snd
          rw [hinjapp, h3, List.map_append]
          rfl)
        (fun x hx => hfb x (by simp [hx]))
        (by
          intro x hx
          show x.elem ∉ akeys (aset t.injectedAnchors m.elem _)
          rw [hinjapp]
          simp only [akeys, List.map_append, List.mem_append, List.map_cons,
            List.map_nil, List.mem_singleton]
          push_neg
          exact ⟨hfresh x (by simp [hx]), hndc.1 x hx⟩)
        hndc.2
      obtain ⟨c1, c2, c3, c4, c5⟩ := hres
      refine ⟨c1, c2, c3, ?_, c5⟩
      rw [c4]
      show akeys (aset t.injectedAnchors m.elem _) ++ _ = _
      rw [hinjapp]
      simp [akeys, List.filter_cons, hrole, List.append_assoc]
    · rw [inject_skip_nonuser t dom m hrole]
      obtain ⟨c1, c2, c3, c4, c5⟩ := ih t h1 h2 h3
        (fun x hx => hfb x (by simp [hx]))
        (fun x hx => hfresh x (by simp [hx]))
        hndc.2
      refine ⟨c1, c2, c3, ?_, c5⟩
      rw [c4]
      simp [List.filter_cons, hrole]

/-! ### System invariant: removed phase -/

theorem removeAnchorForMessage_spec (t : Sys) (m : MessageData)
    (hgi : GenInv t.gen)
    (hmirror : t.injectedAnchors = t.gen.anchorMap)
    (hlines : t.ui.messageLines = t.injectedAnchors.map Prod.snd) :
    GenInv (AnchorInjector.removeAnchorForMessage t m).gen ∧
    (AnchorInjector.removeAnchorForMessage t m).injectedAnchors
      = (AnchorInjector.removeAnchorForMessage t m).gen.anchorMap ∧
    (AnchorInjector.removeAnchorForMessage t m).ui.messageLines
      = (AnchorInjector.removeAnchorForMessage t m).injectedAnchors.map Prod.snd ∧
    (AnchorInjector.removeAnchorForMessage t m).injectedAnchors
      = t.injectedAnchors.filter (fun p => p.1 ≠ m.elem) ∧
    (AnchorInjector.removeAnchorForMessage t m).md = t.md := by
  cases hlook : alookup t.injectedAnchors m.elem with
  | none =>
    have hmain : AnchorInjector.removeAnchorForMessage t m = t := by
      simp [AnchorInjector.removeAnchorForMessage, hlook]
    rw [hmain]
    have hnot : m.elem ∉ akeys t.injectedAnchors := (alookup_isNone_iff _ _).1 hlook
    refine ⟨hgi, hmirror, hlines, ?_, rfl⟩
    refine (List.filter_eq_self.2 ?_).symm
    intro p hp
    have hne : p.1 ≠ m.elem := fun heq => hnot (heq ▸ List.mem_map.2 ⟨p, hp, rfl⟩)
    simpa using hne
  | some anchorId =>
    have hglook : alookup t.gen.anchorMap m.elem = some anchorId := by
      rw [← hmirror]
      exact hlook
    obtain ⟨hgi', hgfilter, hgseq⟩ := removeAnchor_spec t.gen m.elem hgi
    have hnd : (akeys t.injectedAnchors).Nodup := by
      rw [hmirror]
      exact hgi.2.2.2
    have hvalpw : t.injectedAnchors.Pairwise (fun p q => p.2 ≠ q.2) := by
      rw [hmirror]
      exact hgi.2.1.imp (fun h heq => h (by rw [heq]))
    have hmain : AnchorInjector.removeAnchorForMessage t m
        = { t with
            ui := AnchorUI.removeMessageLine t.ui anchorId
            gen := AnchorGenerator.removeAnchor t.gen m.elem
            injectedAnchors := aerase t.injectedAnchors m.elem } := by
      simp [AnchorInjector.removeAnchorForMessage, hlook]
    rw [hmain]
    have hinjfilter : aerase t.injectedAnchors m.elem
        = t.injectedAnchors.filter (fun p => p.1 ≠ m.elem) :=
      aerase_eq_filter_of_nodup _ _ hnd
    refine ⟨hgi', ?_, ?_, hinjfilter, rfl⟩
    · show aerase t.injectedAnchors m.elem
          = (AnchorGenerator.removeAnchor t.gen m.elem).anchorMap
      rw [hinjfilter, hgfilter, hmirror]
    · show t.ui.messageLines.erase anchorId
          = (aerase t.injectedAnchors m.elem).map Prod.snd
      rw [hlines]
      exact map_snd_erase t.injectedAnchors m.elem anchorId hvalpw hlook

theorem remove_fold_spec :
    ∀ (ms : List MessageData) (t : Sys),
      GenInv t.gen →
      t.injectedAnchors = t.gen.anchorMap →
      t.ui.messageLines = t.injectedAnchors.map Prod.snd →
      GenInv (ms.foldl AnchorInjector.removeAnchorForMessage t).gen ∧
      (ms.foldl AnchorInjector.removeAnchorForMessage t).injectedAnchors
        = (ms.foldl AnchorInjector.removeAnchorForMessage t).gen.anchorMap ∧
      (ms.foldl AnchorInjector.removeAnchorForMessage t).ui.messageLines
        = (ms.foldl AnchorInjector.removeAnchorForMessage t).injectedAnchors.map Prod.snd ∧
      (ms.foldl AnchorInjector.removeAnchorForMessage t).injectedAnchors
        = t.injectedAnchors.filter
            (fun p => p.1 ∉ ms.map MessageData.elem) ∧
      (ms.foldl AnchorInjector.removeAnchorForMessage t).md = t.md := by
  intro ms
  induction ms with
  | nil =>
    intro t h1 h2 h3
    refine ⟨h1, h2, h3, ?_, rfl⟩
    refine (List.filter_eq_self.2 ?_).symm
    intro p _
    simp
  | cons m ms ih =>
    intro t h1 h2 h3
    rw [List.foldl_cons]
    obtain ⟨s1, s2, s3, s4, s5⟩ := removeAnchorForMessage_spec t m h1 h2 h3
    obtain ⟨c1, c2, c3, c4, c5⟩ :=
      ih (AnchorInjector.removeAnchorForMessage t m) s1 s2 s3
    refine ⟨c1, c2, c3, ?_, by rw [c5, s5]⟩
    rw [c4, s4, List.filter_filter]
    refine List.filter_congr ?_
    intro p hp
    by_cases h5 : p.1 = m.elem
    · simp [h5]
    · by_cases h6 : p.1 ∈ ms.map MessageData.elem
      · simp [h5, h6]
      · simp [h5, h6]

/-! ### System invariant: updated phase -/

theorem GenInv_congr (s1 s2 : GenState) (h1 : s1.anchorMap = s2.anchorMap)
    (h2 : s1.idMap = s2.idMap) (h3 : s1.sequenceCounter = s2.sequenceCounter)
    (h : GenInv s2) : GenInv s1 := by
  obtain ⟨a, b, c, d⟩ := h
  exact ⟨by rw [h1, h3]; exact a, by rw [h1]; exact b,
    by rw [h1, h2]; exact c, by rw [h1]; exact d⟩

theorem streamingCacheRefresh_spec (t : Sys) (dom : Dom) (m : MessageData) :
    (AnchorInjector.streamingCacheRefresh t dom m).gen.anchorMap = t.gen.anchorMap ∧
    (AnchorInjector.streamingCacheRefresh t dom m).gen.idMap = t.gen.idMap ∧
    (AnchorInjector.streamingCacheRefresh t dom m).gen.sequenceCounter
        = t.gen.sequenceCounter ∧
    (AnchorInjector.streamingCacheRefresh t dom m).injectedAnchors
        = t.injectedAnchors ∧
    (AnchorInjector.streamingCacheRefresh t dom m).ui = t.ui ∧
    (AnchorInjector.streamingCacheRefresh t dom m).md = t.md := by
  unfold AnchorInjector.streamingCacheRefresh
  split
  · exact ⟨rfl, rfl, rfl, rfl, rfl, rfl⟩
  · exact ⟨rfl, rfl, rfl, rfl, rfl, rfl⟩

theorem refresh_fold_spec (dom : Dom) :
    ∀ (ms : List MessageData) (t : Sys),
      (ms.foldl (fun s m => AnchorInjector.streamingCacheRefresh s dom m) t).gen.anchorMap
          = t.gen.anchorMap ∧
      (ms.foldl (fun s m => AnchorInjector.streamingCacheRefresh s dom m) t).gen.idMap
          = t.gen.idMap ∧
      (ms.foldl (fun s m => AnchorInjector.streamingCacheRefresh s dom m) t).gen.sequenceCounter
          = t.gen.sequenceCounter ∧
      (ms.foldl (fun s m => AnchorInjector.streamingCacheRefresh s dom m) t).injectedAnchors
          = t.injectedAnchors ∧
      (ms.foldl (fun s m => AnchorInjector.streamingCacheRefresh s dom m) t).ui = t.ui ∧
      (ms.foldl (fun s m => AnchorInjector.streamingCacheRefresh s dom m) t).md = t.md := by
  intro ms
  induction ms with
  | nil => intro t; exact ⟨rfl, rfl, rfl, rfl, rfl, rfl⟩
  | cons m ms ih =>
    intro t
    rw [List.foldl_cons]
    obtain ⟨c1, c2, c3, c4, c5, c6⟩ := ih (AnchorInjector.streamingCacheRefresh t dom m)
    obtain ⟨s1, s2, s3, s4, s5, s6⟩ := streamingCacheRefresh_spec t dom m
    exact ⟨by rw [c1, s1], by rw [c2, s2], by rw [c3, s3],
      by rw [c4, s4], by rw [c5, s5], by rw [c6, s6]⟩

theorem updateStreaming_keys (dom : Dom) (now : Nat) (st : MDState) :
    akeys (MessageDetector.updateStreamingMessages dom now st).1.messages
      = akeys st.messages := by
  show akeys (st.messages.map _) = akeys st.messages
  simp only [akeys, List.map_map]
  refine List.map_congr_left ?_
  intro p _
  simp only [Function.comp_apply]
  cases h : MessageDetector.streamingUpdate dom now p <;> simp [h]

theorem updateStreaming_wf (dom : Dom) (now : Nat) (st : MDState)
    (hwf : ∀ p ∈ st.messages, p.2.elem = p.1) :
    ∀ p ∈ (MessageDetector.updateStreamingMessages dom now st).1.messages,
      p.2.elem = p.1 := by
  intro p hp
  obtain ⟨q, hq, hqp⟩ := List.mem_map.1 hp
  cases h : MessageDetector.streamingUpdate dom now q with
  | none =>
    rw [h] at hqp
    rw [← hqp]
    exact hwf q hq
  | some m2 =>
    rw [h] at hqp
    rw [← hqp]
    show m2.elem = q.1
    rw [streamingUpdate_elem dom now q m2 h]
    exact hwf q hq

/-! ### System invariant: phase and pass preservation -/

theorem addedPhase_sysinv (s : Sys) (dom : Dom) (now : Nat)
    (hfb : ∀ e ∈ dom.candidates, fallbackElem e = true)
    (hinv : SysInv s) : SysInv (AnchorInjector.addedPhase s dom now).1 := by
  obtain ⟨hgi, hmirror, hndmd, hkeys, hlines, hwf⟩ := hinv
  obtain ⟨news, hd1, hd2, hd3, hd4⟩ := detect_spec dom now s.md
  have hmd1keys : akeys (MessageDetector.detectExistingMessages dom now s.md).1.messages
      = akeys s.md.messages ++ akeys news := by
    rw [hd1]
    simp [akeys]
  have hmd1nd : (akeys (MessageDetector.detectExistingMessages dom now s.md).1.messages).Nodup := by
    rw [hmd1keys, List.nodup_append]
    refine ⟨hndmd, hd4, ?_⟩
    intro a ha hb
    obtain ⟨p, hp, hpe⟩ := List.mem_map.1 hb
    exact (hd3 p hp).2.2 (hpe ▸ ha)
  have hmd1wf : ∀ p ∈ (MessageDetector.detectExistingMessages dom now s.md).1.messages,
      p.2.elem = p.1 := by
    intro p hp
    rw [hd1] at hp
    rcases List.mem_append.1 hp with h | h
    · exact hwf p h
    · rw [(hd3 p h).1]
      rfl
  by_cases hemp : (MessageDetector.detectExistingMessages dom now s.md).2.isEmpty
  · have hnews : news = [] := by
      have h0 : (MessageDetector.detectExistingMessages dom now s.md).2 = [] :=
        List.isEmpty_iff.1 hemp
      rw [hd2] at h0
      exact List.map_eq_nil_iff.1 h0
    have hphase : (AnchorInjector.addedPhase s dom now).1
        = { s with md := (MessageDetector.detectExistingMessages dom now s.md).1 } := by
      simp [AnchorInjector.addedPhase, hemp]
    rw [hphase]
    refine ⟨hgi, hmirror, hmd1nd, ?_, hlines, hmd1wf⟩
    show akeys s.injectedAnchors = _
    rw [hmd1keys, hnews]
    simpa [akeys] using hkeys
  · have hphase : (AnchorInjector.addedPhase s dom now).1
        = AnchorInjector.handleMessagesChanged
            { s with md := (MessageDetector.detectExistingMessages dom now s.md).1 } dom
            ⟨.added, (MessageDetector.detectExistingMessages dom now s.md).2⟩ := by
      simp [AnchorInjector.addedPhase, hemp]
    have hhandle : AnchorInjector.handleMessagesChanged
          { s with md := (MessageDetector.detectExistingMessages dom now s.md).1 } dom
          ⟨.added, (MessageDetector.detectExistingMessages dom now s.md).2⟩
        = (MessageDetector.detectExistingMessages dom now s.md).2.foldl
            (fun s m => AnchorInjector.injectAnchorForMessage s dom m)
            { s with md := (MessageDetector.detectExistingMessages dom now s.md).1 } := rfl
    have hbatchelems : (MessageDetector.detectExistingMessages dom now s.md).2.map
        MessageData.elem = akeys news := by
      rw [hd2, List.map_map]
      refine List.map_congr_left ?_
      intro p hp
      simp only [Function.comp_apply]
      rw [(hd3 p hp).1]
      rfl
    obtain ⟨c1, c2, c3, c4, c5⟩ := inject_fold_spec dom
      (MessageDetector.detectExistingMessages dom now s.md).2
      { s with md := (MessageDetector.detectExistingMessages dom now s.md).1 }
      hgi hmirror hlines
      (by
        intro m hm
        rw [hd2] at hm
        obtain ⟨p, hp, rfl⟩ := List.mem_map.1 hm
        rw [show MessageData.elem p.2 = p.1 from by rw [(hd3 p hp).1]; rfl]
        exact hfb p.1 (hd3 p hp).2.1)
      (by
        intro m hm
        rw [hd2] at hm
        obtain ⟨p, hp, rfl⟩ := List.mem_map.1 hm
        rw [show MessageData.elem p.2 = p.1 from by rw [(hd3 p hp).1]; rfl]
        show p.1 ∉ akeys s.injectedAnchors
        rw [hkeys]
        intro hmem
        exact (hd3 p hp).2.2 (List.mem_of_mem_filter hmem))
      (by
        rw [hbatchelems]
        exact hd4)
    rw [hphase, hhandle]
    refine ⟨c1, c2, ?_, ?_, c3, ?_⟩
    · rw [c5]
      exact hmd1nd
    · rw [c4, c5, hbatchelems]
      show akeys s.injectedAnchors ++ _ = _
      rw [hkeys, hmd1keys, List.filter_append]
    · rw [c5]
      exact hmd1wf

theorem removedPhase_sysinv (s : Sys) (dom : Dom) (hinv : SysInv s) :
    SysInv (AnchorInjector.removedPhase s dom).1 := by
  obtain ⟨hgi, hmirror, hndmd, hkeys, hlines, hwf⟩ := hinv
  have hcl1 : (MessageDetector.cleanupRemovedMessages dom s.md).1.messages
      = s.md.messages.filter (fun p => dom.contains p.1) := rfl
  have hcl2 : (MessageDetector.cleanupRemovedMessages dom s.md).2
      = (s.md.messages.filter (fun p => !(dom.contains p.1))).map Prod.snd := rfl
  have hmd2keys : akeys (MessageDetector.cleanupRemovedMessages dom s.md).1.messages
      = (akeys s.md.messages).filter dom.contains := by
    rw [hcl1]
    exact akeys_filter s.md.messages dom.contains
  have hmd2nd : (akeys (MessageDetector.cleanupRemovedMessages dom s.md).1.messages).Nodup := by
    rw [hmd2keys]
    exact hndmd.filter _
  have hmd2wf : ∀ p ∈ (MessageDetector.cleanupRemovedMessages dom s.md).1.messages,
      p.2.elem = p.1 := by
    intro p hp
    rw [hcl1] at hp
    exact hwf p (List.mem_of_mem_filter hp)
  by_cases hemp : (MessageDetector.cleanupRemovedMessages dom s.md).2.isEmpty
  · have hrem : s.md.messages.filter (fun p => !(dom.contains p.1)) = [] := by
      have h0 := List.isEmpty_iff.1 hemp
      rw [hcl2] at h0
      exact List.map_eq_nil_iff.1 h0
    have hall : ∀ p ∈ s.md.messages, dom.contains p.1 = true := by
      intro p hp
      by_contra hq
      have hfalse : dom.contains p.1 = false := by
        revert hq
        cases dom.contains p.1 <;> simp
      have hmem : p ∈ s.md.messages.filter (fun p => !(dom.contains p.1)) :=
        List.mem_filter.2 ⟨hp, by simp [hfalse]⟩
      rw [hrem] at hmem
      cases hmem
    have hmd2eq : (MessageDetector.cleanupRemovedMessages dom s.md).1.messages
        = s.md.messages := by
      rw [hcl1]
      exact List.filter_eq_self.2 (fun p hp => hall p hp)
    have hphase : (AnchorInjector.removedPhase s dom).1
        = { s with md := (MessageDetector.cleanupRemovedMessages dom s.md).1 } := by
      simp [AnchorInjector.removedPhase, hemp]
    rw [hphase]
    refine ⟨hgi, hmirror, ?_, ?_, hlines, ?_⟩
    · show (akeys (MessageDetector.cleanupRemovedMessages dom s.md).1.messages).Nodup
      rw [hmd2eq]
      exact hndmd
    · show akeys s.injectedAnchors = _
      rw [show ({ s with md := (MessageDetector.cleanupRemovedMessages dom s.md).1 } : Sys).md
          = (MessageDetector.cleanupRemovedMessages dom s.md).1 from rfl, hmd2eq]
      exact hkeys
    · intro p hp
      have hp2 : p ∈ (MessageDetector.cleanupRemovedMessages dom s.md).1.messages := hp
      rw [hmd2eq] at hp2
      exact hwf p hp2
  · have hbatchelems : (MessageDetector.cleanupRemovedMessages dom s.md).2.map
        MessageData.elem
        = akeys (s.md.messages.filter (fun p => !(dom.contains p.1))) := by
      rw [hcl2, List.map_map]
      refine List.map_congr_left ?_
      intro p hp
      simp only [Function.comp_apply]
      exact hwf p (List.mem_of_mem_filter hp)
    have hmemiff : ∀ a : Elem,
        a ∈ (MessageDetector.cleanupRemovedMessages dom s.md).2.map MessageData.elem
          ↔ a ∈ akeys s.md.messages ∧ dom.contains a = false := by
      intro a
      rw [hbatchelems,
        show akeys (s.md.messages.filter (fun p => !(dom.contains p.1)))
          = (akeys s.md.messages).filter (fun e => !(dom.contains e))
          from akeys_filter s.md.messages (fun e => !(dom.contains e)),
        List.mem_filter]
      simp
    have hphase : (AnchorInjector.removedPhase s dom).1
        = AnchorInjector.handleMessagesChanged
            { s with md := (MessageDetector.cleanupRemovedMessages dom s.md).1 } dom
            ⟨.removed, (MessageDetector.cleanupRemovedMessages dom s.md).2⟩ := by
      simp [AnchorInjector.removedPhase, hemp]
    have hhandle : AnchorInjector.handleMessagesChanged
          { s with md := (MessageDetector.cleanupRemovedMessages dom s.md).1 } dom
          ⟨.removed, (MessageDetector.cleanupRemovedMessages dom s.md).2⟩
        = (MessageDetector.cleanupRemovedMessages dom s.md).2.foldl
            AnchorInjector.removeAnchorForMessage
            { s with md := (MessageDetector.cleanupRemovedMessages dom s.md).1 } := rfl
    obtain ⟨c1, c2, c3, c4, c5⟩ := remove_fold_spec
      (MessageDetector.cleanupRemovedMessages dom s.md).2
      { s with md := (MessageDetector.cleanupRemovedMessages dom s.md).1 }
      hgi hmirror hlines
    rw [hphase, hhandle]
    refine ⟨c1, c2, ?_, ?_, c3, ?_⟩
    · rw [c5]
      exact hmd2nd
    · rw [c5, c4]
      rw [show akeys ((({ s with
            md := (MessageDetector.cleanupRemovedMessages dom s.md).1 } : Sys)).injectedAnchors.filter
            (fun p => p.1 ∉ (MessageDetector.cleanupRemovedMessages dom s.md).2.map
              MessageData.elem))
          = (akeys s.injectedAnchors).filter
            (fun a => a ∉ (MessageDetector.cleanupRemovedMessages dom s.md).2.map
              MessageData.elem)
          from akeys_filter s.injectedAnchors
            (fun a => decide (a ∉ (MessageDetector.cleanupRemovedMessages dom s.md).2.map
              MessageData.elem))]
      rw [hkeys, hmd2keys, List.filter_filter, List.filter_filter]
      refine List.filter_congr ?_
      intro a ha
      by_cases hc : dom.contains a = true
      · have hnb : a ∉ (MessageDetector.cleanupRemovedMessages dom s.md).2.map
            MessageData.elem := by
          intro hm
          have := ((hmemiff a).1 hm).2
          rw [this] at hc
          cases hc
        simp [hc, hnb]
      · have hcf : dom.contains a = false := by
          revert hc
          cases dom.contains a <;> simp
        have hb : a ∈ (MessageDetector.cleanupRemovedMessages dom s.md).2.map
            MessageData.elem := (hmemiff a).2 ⟨ha, hcf⟩
        simp [hcf, hb]
    · intro p hp
      rw [c5] at hp
      exact hmd2wf p hp

theorem updatedPhase_sysinv (s : Sys) (dom : Dom) (now : Nat) (hinv : SysInv s) :
    SysInv (AnchorInjector.updatedPhase s dom now).1 := by
  obtain ⟨hgi, hmirror, hndmd, hkeys, hlines, hwf⟩ := hinv
  have hkeyseq := updateStreaming_keys dom now s.md
  by_cases hemp : (MessageDetector.updateStreamingMessages dom now s.md).2.isEmpty
  · have hphase : (AnchorInjector.updatedPhase s dom now).1
        = { s with md := (MessageDetector.updateStreamingMessages dom now s.md).1 } := by
      simp [AnchorInjector.updatedPhase, hemp]
    rw [hphase]
    refine ⟨hgi, hmirror, ?_, ?_, hlines, ?_⟩
    · show (akeys (MessageDetector.updateStreamingMessages dom now s.md).1.messages).Nodup
      rw [hkeyseq]
      exact hndmd
    · show akeys s.injectedAnchors = _
      rw [show ({ s with
          md := (MessageDetector.updateStreamingMessages dom now s.md).1 } : Sys).md
          = (MessageDetector.updateStreamingMessages dom now s.md).1 from rfl, hkeyseq]
      exact hkeys
    · exact updateStreaming_wf dom now s.md hwf
  · have hphase : (AnchorInjector.updatedPhase s dom now).1
        = AnchorInjector.handleMessagesChanged
            { s with md := (MessageDetector.updateStreamingMessages dom now s.md).1 } dom
            ⟨.updated, (MessageDetector.updateStreamingMessages dom now s.md).2⟩ := by
      simp [AnchorInjector.updatedPhase, hemp]
    have hhandle : AnchorInjector.handleMessagesChanged
          { s with md := (MessageDetector.updateStreamingMessages dom now s.md).1 } dom
          ⟨.updated, (MessageDetector.updateStreamingMessages dom now s.md).2⟩
        = (MessageDetector.updateStreamingMessages dom now s.md).2.foldl
            (fun s m => AnchorInjector.streamingCacheRefresh s dom m)
            { s with md := (MessageDetector.updateStreamingMessages dom now s.md).1 } := rfl
    obtain ⟨c1, c2, c3, c4, c5, c6⟩ := refresh_fold_spec dom
      (MessageDetector.updateStreamingMessages dom now s.md).2
      { s with md := (MessageDetector.updateStreamingMessages dom now s.md).1 }
    rw [hphase, hhandle]
    refine ⟨?_, ?_, ?_, ?_, ?_, ?_⟩
    · exact GenInv_congr _ _ c1 c2 c3 hgi
    · rw [c4, c1]
      exact hmirror
    · rw [c6]
      rw [show ({ s with
          md := (MessageDetector.updateStreamingMessages dom now s.md).1 } : Sys).md
          = (MessageDetector.updateStreamingMessages dom now s.md).1 from rfl, hkeyseq]
      exact hndmd
    · rw [c4, c6]
      rw [show ({ s with
          md := (MessageDetector.updateStreamingMessages dom now s.md).1 } : Sys).md
          = (MessageDetector.updateStreamingMessages dom now s.md).1 from rfl, hkeyseq]
      exact hkeys
    · rw [c5, c4]
      exact hlines
    · intro p hp
      rw [c6] at hp
      exact updateStreaming_wf dom now s.md hwf p hp

theorem SysInv_init : SysInv AnchorInjector.initSys :=
  ⟨GenInv_init, rfl, by simp [AnchorInjector.initSys, MessageDetector.initState, akeys],
   rfl, rfl, by intro p hp; cases hp⟩

theorem pass_sysinv (s : Sys) (dom : Dom) (now : Nat)
    (hfb : ∀ e ∈ dom.candidates, fallbackElem e = true) (hinv : SysInv s) :
    SysInv (AnchorInjector.reconciliationPass s dom now).1 :=
  updatedPhase_sysinv _ dom now
    (removedPhase_sysinv _ dom (addedPhase_sysinv s dom now hfb hinv))

theorem passes_fold_sysinv :
    ∀ (passes : List (Dom × Nat)) (s : Sys), SysInv s →
      (∀ pr ∈ passes, ∀ e ∈ pr.1.candidates, fallbackElem e = true) →
      SysInv (passes.foldl
        (fun s p => (AnchorInjector.reconciliationPass s p.1 p.2).1) s) := by
  intro passes
  induction passes with
  | nil => intro s h _; exact h
  | cons pr passes ih =>
    intro s h hfb
    rw [List.foldl_cons]
    exact ih _ (pass_sysinv s pr.1 pr.2 (hfb pr (by simp)) h)
      (fun pr2 hpr2 => hfb pr2 (by simp [hpr2]))

theorem runPasses_sysinv (passes : List (Dom × Nat))
    (hfb : ∀ pr ∈ passes, ∀ e ∈ pr.1.candidates, fallbackElem e = true) :
    SysInv (AnchorInjector.runPasses AnchorInjector.initSys passes) :=
  passes_fold_sysinv passes AnchorInjector.initSys SysInv_init hfb

/-! ### C1: congruence of registry and tracker -/

/-- C1, refuted as stated: after one reconciliation pass over `domA` (one
user message, one assistant message, both delivered in the added batch),
the Tracker holds two records but the anchor UI holds a single entry: the
assistant record's identifier (and indeed every `msg-*` record identifier)
has no anchor-UI entry, because the injector anchors only user-role
messages and keys entries by separately generated `anchor-*` ids. -/
theorem registry_congruence_counterexample :
    sysA.md.messages.map (fun p => p.2.id) = ["msg-0-to5x38", "msg-2-talxk8"] ∧
    sysA.ui.messageLines = ["anchor-0-to5x38-0"] ∧
    ((sysA.md.messages.map (fun p => p.2.id)).any
        (fun i => !(sysA.ui.messageLines.contains i))) = true := by
  exact ⟨by decide, by decide, by decide⟩

/-- C1 as amended: after any sequence of reconciliation passes over pages
whose candidate elements carry no external id (the fallback identity path),
the anchor-UI entry list is exactly the list of anchor identifiers of the
currently-injected elements, the injected elements are exactly the tracked
user-role message elements, no entry is duplicated, and every injected
element's identifier is registered to it in the generator — i.e. the
registry is congruent with the tracked **user** messages (not with all
tracked messages), with no orphaned or missing entries. -/
theorem registry_congruence_user_only (passes : List (Dom × Nat))
    (hfb : ∀ pr ∈ passes, ∀ e ∈ pr.1.candidates, fallbackElem e = true) :
    (AnchorInjector.runPasses AnchorInjector.initSys passes).ui.messageLines
        = (AnchorInjector.runPasses AnchorInjector.initSys
            passes).injectedAnchors.map Prod.snd ∧
    akeys (AnchorInjector.runPasses AnchorInjector.initSys passes).injectedAnchors
        = (akeys (AnchorInjector.runPasses AnchorInjector.initSys
            passes).md.messages).filter (fun e => e.role = Role.user) ∧
    (AnchorInjector.runPasses AnchorInjector.initSys passes).ui.messageLines.Nodup ∧
    (∀ p ∈ (AnchorInjector.runPasses AnchorInjector.initSys passes).injectedAnchors,
      alookup (AnchorInjector.runPasses AnchorInjector.initSys
        passes).gen.anchorMap p.1 = some p.2) := by
  obtain ⟨hgi, hmirror, hndmd, hkeys, hlines, hwf⟩ := runPasses_sysinv passes hfb
  refine ⟨hlines, hkeys, ?_, ?_⟩
  · rw [hlines, hmirror]
    show ((AnchorInjector.runPasses AnchorInjector.initSys
        passes).gen.anchorMap.map Prod.snd).Pairwise _
    rw [List.pairwise_map]
    exact hgi.2.1.imp (fun h heq => h (by rw [heq]))
  · intro p hp
    rw [hmirror] at hp
    exact alookup_of_mem_nodup _ _ _ hgi.2.2.2 hp

/-- Closed instance of C1 as amended, after one pass over `domA`. -/
theorem registry_congruence_user_only_witness :
    (AnchorInjector.runPasses AnchorInjector.initSys [(domA, 5)]).ui.messageLines
        = (AnchorInjector.runPasses AnchorInjector.initSys
            [(domA, 5)]).injectedAnchors.map Prod.snd ∧
    akeys (AnchorInjector.runPasses AnchorInjector.initSys [(domA, 5)]).injectedAnchors
        = (akeys (AnchorInjector.runPasses AnchorInjector.initSys
            [(domA, 5)]).md.messages).filter (fun e => e.role = Role.user) ∧
    (AnchorInjector.runPasses AnchorInjector.initSys [(domA, 5)]).ui.messageLines.Nodup ∧
    (∀ p ∈ (AnchorInjector.runPasses AnchorInjector.initSys [(domA, 5)]).injectedAnchors,
      alookup (AnchorInjector.runPasses AnchorInjector.initSys
        [(domA, 5)]).gen.anchorMap p.1 = some p.2) :=
  registry_congruence_user_only [(domA, 5)] (by decide)
